import Mathlib

/-!
# newrelic-cli, package `internal/install/execution`: the platform link generator

A shallow embedding of `platform_link_generator.go`.

* Go `string` values are modelled by Lean `String` (well-formed UTF-8 text); where Go works on
  the bytes of a string (base64) the UTF-8 bytes are computed by `goBytes`. The referrer
  parameter is embedded a second time, in namespace `Bytewise`, for an arbitrary Go string (one
  that need not be well-formed UTF-8) and for either release of the JSON encoder.
* Go's `(string, error)` results are pairs `String × Option String`, the second component
  being the error (`none` is Go's `nil`).
* Everything the generator reads from outside (active profile, process environment, the HTTP
  client of the shortening service) is collected in `Env` and passed explicitly.
-/

namespace Execution

/-! ## Go runtime: `strings.EqualFold` -/

/-- Go's `unicode.SimpleFold` on every case orbit that contains an ASCII rune: the letter pairs,
and the two three-element orbits `K k U+212A` and `S s U+017F`. Runes outside those orbits are
left fixed here; `EqualFold` never folds such a rune when one of its arguments is ASCII. -/
def simpleFold (r : Nat) : Nat :=
  if r = 0x4B then 0x6B
  else if r = 0x6B then 0x212A
  else if r = 0x212A then 0x4B
  else if r = 0x53 then 0x73
  else if r = 0x73 then 0x17F
  else if r = 0x17F then 0x53
  else if 0x41 ≤ r ∧ r ≤ 0x5A then r + 32
  else if 0x61 ≤ r ∧ r ≤ 0x7A then r - 32
  else r

/-- The inner loop of `strings.EqualFold`: `for r != sr && r < tr { r = unicode.SimpleFold(r) }`.
The first argument bounds the number of iterations. -/
def foldLoop : Nat → Nat → Nat → Nat → Nat
  | 0, _, _, r => r
  | n + 1, sr, tr, r => if r ≠ sr ∧ r < tr then foldLoop n sr tr (simpleFold r) else r

/-- One iteration of the outer loop of `strings.EqualFold`, on the two runes just read:
`true` when the loop continues, `false` when the function returns `false`. -/
def equalFoldRune (s t : Nat) : Bool :=
  if t = s then true
  else
    let sr := if t < s then t else s
    let tr := if t < s then s else t
    if tr < 0x80 then
      decide (0x41 ≤ sr ∧ sr ≤ 0x5A ∧ tr = sr + 0x61 - 0x41)
    else
      decide (foldLoop 4 sr tr (simpleFold sr) = tr)

/-- The outer loop of `strings.EqualFold` and its final `return s == t`. -/
def equalFoldAux : List Char → List Char → Bool
  | [], [] => true
  | [], _ :: _ => false
  | _ :: _, [] => false
  | a :: s, b :: t => equalFoldRune a.toNat b.toNat && equalFoldAux s t

/-- Go's `strings.EqualFold`. -/
def EqualFold (s t : String) : Bool := equalFoldAux s.data t.data

/-! ## Go runtime: `fmt.Sprintf` with the verbs `%s` and `%d` -/

/-- An operand of `Sprintf`: a `string` or an `int`. -/
inductive FmtArg where
  | str (s : String)
  | int (i : Int)

/-- Decimal digits of a natural number, most significant first, accumulated in front of `acc`.
The first argument bounds the number of digits. -/
def natDigits : Nat → Nat → List Char → List Char
  | 0, _, acc => acc
  | fuel + 1, n, acc =>
    let acc1 := Char.ofNat (48 + n % 10) :: acc
    if n / 10 = 0 then acc1 else natDigits fuel (n / 10) acc1

/-- What `%d` prints for an `int`. -/
def formatInt (i : Int) : List Char :=
  match i with
  | Int.ofNat n => natDigits (n + 1) n []
  | Int.negSucc n => Char.ofNat 45 :: natDigits (n + 2) (n + 1) []

/-- The format interpreter behind `Sprintf`, for `%s` applied to a string and `%d` applied to an
int (the only verbs and operand types the generator uses); other characters are copied. -/
def sprintfAux : List Char → List FmtArg → List Char
  | '%' :: 's' :: fs, FmtArg.str s :: args => s.data ++ sprintfAux fs args
  | '%' :: 'd' :: fs, FmtArg.int i :: args => formatInt i ++ sprintfAux fs args
  | c :: fs, args => c :: sprintfAux fs args
  | [], _ => []

/-- Go's `fmt.Sprintf`. -/
def Sprintf (format : String) (args : List FmtArg) : String :=
  String.mk (sprintfAux format.data args)

/-! ## Go runtime: `encoding/json`, encoding -/

/-- The table `hex` of `encoding/json`: `"0123456789abcdef"`. -/
def hexDigit (n : Nat) : Char := "0123456789abcdef".data.getD n '0'

/-- What `encodeState.string` (with HTML escaping, the default of `json.Marshal`) writes for one
rune of a well-formed string: runes of `htmlSafeSet` and non-ASCII runes are copied, `\` and `"`
get a backslash, newline, carriage return and tab their short escape, every other ASCII rune
(the remaining control characters and `<`, `>`, `&`) becomes `\u00XX`, and U+2028 and U+2029
are written as the escapes u2028 and u2029. This is the encoder before Go 1.22; since Go 1.22
U+0008 and U+000C are written with the short escapes `\b` and `\f`, and `jsonEscapeRune` below
gives both releases. -/
def jsonEscapeChar (c : Char) : List Char :=
  let b := c.toNat
  if b < 0x80 then
    if 0x20 ≤ b ∧ c ≠ '"' ∧ c ≠ '&' ∧ c ≠ '<' ∧ c ≠ '>' ∧ c ≠ '\\' then [c]
    else if c = '\\' ∨ c = '"' then ['\\', c]
    else if c = '\n' then ['\\', 'n']
    else if c = '\r' then ['\\', 'r']
    else if c = '\t' then ['\\', 't']
    else ['\\', 'u', '0', '0', hexDigit (b / 16), hexDigit (b % 16)]
  else if b = 0x2028 ∨ b = 0x2029 then ['\\', 'u', '2', '0', '2', hexDigit (b % 16)]
  else [c]

/-- The JSON string literal `encoding/json` writes for a Go string. -/
def jsonQuote (s : String) : List Char :=
  '"' :: (s.data.flatMap jsonEscapeChar ++ ['"'])

/-- The members of a JSON object in the order they are written: name and string value. -/
abbrev Members := List (String × String)

/-- The loop of the struct encoder of `encoding/json` over the members to write: each member
is preceded by `next`, which is the opening brace before the first member and a comma
afterwards; at the end an object with no member is written `{}`, any other is closed. -/
def writeMembers (next : Char) : Members → List Char
  | [] => if next = '{' then ['{', '}'] else ['}']
  | kv :: ms => next :: (jsonQuote kv.1 ++ ':' :: (jsonQuote kv.2 ++ writeMembers ',' ms))

/-- The text of a JSON object with the given string members, as `encoding/json` writes it. -/
def jsonObject (ms : Members) : String := String.mk (writeMembers '{' ms)

/-! ## Go runtime: UTF-8 bytes of a string -/

/-- Go's `utf8.EncodeRune`: the UTF-8 bytes of one rune. -/
def utf8EncodeRune (r : Nat) : List Nat :=
  if r < 0x80 then [r]
  else if r < 0x800 then [0xC0 + r / 64, 0x80 + r % 64]
  else if r < 0x10000 then [0xE0 + r / 4096, 0x80 + r / 64 % 64, 0x80 + r % 64]
  else [0xF0 + r / 262144, 0x80 + r / 4096 % 64, 0x80 + r / 64 % 64, 0x80 + r % 64]

/-- The bytes of a Go string: `[]byte(s)`. -/
def goBytes (s : String) : List Nat := s.data.flatMap fun c => utf8EncodeRune c.toNat

/-! ## `utils.Base64Encode` -/

/-- The alphabet of standard base64 (RFC 4648). -/
def b64Alphabet : List Char :=
  "ABCDEFGHIJKLMNOPQRSTUVWXYZabcdefghijklmnopqrstuvwxyz0123456789+/".data

/-- The base64 digit of a 6-bit value. -/
def b64Char (n : Nat) : Char := b64Alphabet.getD n '='

/-- Standard base64 with `=` padding, on bytes. -/
def b64EncodeBytes : List Nat → List Char
  | a :: b :: c :: rest =>
    b64Char (a / 4) :: b64Char (a % 4 * 16 + b / 16) :: b64Char (b % 16 * 4 + c / 64)
      :: b64Char (c % 64) :: b64EncodeBytes rest
  | [a, b] => [b64Char (a / 4), b64Char (a % 4 * 16 + b / 16), b64Char (b % 16 * 4), '=']
  | [a] => [b64Char (a / 4), b64Char (a % 4 * 16), '=', '=']
  | [] => []

/-- Modelled from the spec: `utils.Base64Encode` (package `internal/utils`, not among the
sources). The spec writes `base64(filterExpr)` and `base64(referrerParam)` and the unit tests
expect the padded standard encoding (`...In0=`), so this is RFC 4648 base64 with padding of
the bytes of the string. -/
def Base64Encode (data : String) : String := String.mk (b64EncodeBytes (goBytes data))

/-- The 6-bit value of a base64 digit. -/
def b64Val (c : Char) : Option Nat :=
  let i := b64Alphabet.indexOf c
  if i < 64 then some i else none

/-- Decoding of padded standard base64, on bytes; `none` for text that is not such an encoding. -/
def b64DecodeChars : List Char → Option (List Nat)
  | [] => some []
  | [c1, c2, '=', '='] =>
    match b64Val c1, b64Val c2 with
    | some v1, some v2 => if v2 % 16 = 0 then some [v1 * 4 + v2 / 16] else none
    | _, _ => none
  | [c1, c2, c3, '='] =>
    match b64Val c1, b64Val c2, b64Val c3 with
    | some v1, some v2, some v3 =>
      if v3 % 4 = 0 then some [v1 * 4 + v2 / 16, v2 % 16 * 16 + v3 / 4] else none
    | _, _, _ => none
  | c1 :: c2 :: c3 :: c4 :: rest =>
    match b64Val c1, b64Val c2, b64Val c3, b64Val c4, b64DecodeChars rest with
    | some v1, some v2, some v3, some v4, some bs =>
      some ((v1 * 4 + v2 / 16) :: (v2 % 16 * 16 + v3 / 4) :: (v3 % 4 * 64 + v4) :: bs)
    | _, _, _, _, _ => none
  | _ => none

/-- Base64 decoding of a string, to bytes. -/
def Base64Decode (s : String) : Option (List Nat) := b64DecodeChars s.data

/-! ## Go runtime: `encoding/json`, decoding -/

/-- A JSON value as `encoding/json` reads it; a number keeps its text. -/
inductive JValue where
  | null
  | bool (b : Bool)
  | num (raw : List Char)
  | str (s : List Char)
  | arr (xs : List JValue)
  | obj (ms : List (List Char × JValue))

/-- The white space of the JSON scanner: space, tab, carriage return, newline. -/
def skipWS : List Char → List Char
  | c :: cs => if c = ' ' ∨ c = '\t' ∨ c = '\r' ∨ c = '\n' then skipWS cs else c :: cs
  | [] => []

/-- The value of a hexadecimal digit (either case). -/
def hexVal (c : Char) : Option Nat :=
  let n := c.toNat
  if 48 ≤ n ∧ n ≤ 57 then some (n - 48)
  else if 97 ≤ n ∧ n ≤ 102 then some (n - 87)
  else if 65 ≤ n ∧ n ≤ 70 then some (n - 55)
  else none

/-- The function `getu4` of `encoding/json`: the code unit of the four hex digits of a `\u` escape. -/
def getu4 (a b c d : Char) : Option Nat :=
  match hexVal a, hexVal b, hexVal c, hexVal d with
  | some x, some y, some z, some w => some (x * 4096 + y * 256 + z * 16 + w)
  | _, _, _, _ => none

/-- A piece of a string literal: a rune, or the UTF-16 code unit of a `\u` escape. -/
inductive StrUnit where
  | rune (c : Char)
  | esc (u : Nat)

/-- The scanner inside a string literal (after the opening quote): the pieces up to the closing
quote and the text after it. Control characters, unknown escapes and an unterminated literal are
syntax errors. -/
def scanString : List Char → Option (List StrUnit × List Char)
  | [] => none
  | '"' :: cs => some ([], cs)
  | '\\' :: 'u' :: a :: b :: c :: d :: cs =>
    match getu4 a b c d, scanString cs with
    | some u, some (us, rest) => some (StrUnit.esc u :: us, rest)
    | _, _ => none
  | '\\' :: e :: cs =>
    let r : Option Char :=
      if e = '"' ∨ e = '\\' ∨ e = '/' then some e
      else if e = 'b' then some (Char.ofNat 8)
      else if e = 'f' then some (Char.ofNat 12)
      else if e = 'n' then some '\n'
      else if e = 'r' then some '\r'
      else if e = 't' then some '\t'
      else none
    match r, scanString cs with
    | some x, some (us, rest) => some (StrUnit.rune x :: us, rest)
    | _, _ => none
  | c :: cs =>
    if c = '\\' ∨ c.toNat < 0x20 then none
    else
      match scanString cs with
      | some (us, rest) => some (StrUnit.rune c :: us, rest)
      | none => none

/-- The rune of an escaped high surrogate `u` directly followed by an escaped low surrogate
(`utf16.DecodeRune`), when the pieces after `u` start with one. -/
def surrogatePair (u : Nat) : List StrUnit → Option Nat
  | StrUnit.esc v :: _ =>
    if 0xD800 ≤ u ∧ u < 0xDC00 ∧ 0xDC00 ≤ v ∧ v < 0xE000 then
      some ((u - 0xD800) * 1024 + (v - 0xDC00) + 0x10000)
    else none
  | _ => none

/-- The function `unquote` of `encoding/json` on the pieces of a literal: an escaped high
surrogate directly followed by an escaped low surrogate is one rune, any other escaped surrogate
is U+FFFD. The flag says that the piece at the front is the low half of a pair already read. -/
def decodeUnits : Bool → List StrUnit → List Char
  | _, [] => []
  | true, _ :: us => decodeUnits false us
  | false, StrUnit.rune c :: us => c :: decodeUnits false us
  | false, StrUnit.esc u :: us =>
    match surrogatePair u us with
    | some r => Char.ofNat r :: decodeUnits true us
    | none =>
      (if 0xD800 ≤ u ∧ u < 0xE000 then Char.ofNat 0xFFFD else Char.ofNat u) :: decodeUnits false us

/-- A string literal: the text after the opening quote to its value and the text after it. -/
def parseString (cs : List Char) : Option (List Char × List Char) :=
  match scanString cs with
  | some (us, rest) => some (decodeUnits false us, rest)
  | none => none

/-- The longest run of decimal digits at the front of the text, and what follows it. -/
def spanDigits : List Char → List Char × List Char
  | c :: cs =>
    if 48 ≤ c.toNat ∧ c.toNat ≤ 57 then ((spanDigits cs).1.cons c, (spanDigits cs).2)
    else ([], c :: cs)
  | [] => ([], [])

/-- The integer part of a number: `0`, or a digit `1`-`9` followed by digits. -/
def scanIntPart : List Char → Option (List Char × List Char)
  | c :: cs =>
    if c = '0' then some (['0'], cs)
    else if 49 ≤ c.toNat ∧ c.toNat ≤ 57 then some (c :: (spanDigits cs).1, (spanDigits cs).2)
    else none
  | [] => none

/-- The optional fraction of a number: `.` and at least one digit. -/
def scanFrac : List Char → Option (List Char × List Char)
  | '.' :: cs =>
    match spanDigits cs with
    | ([], _) => none
    | (ds, rest) => some ('.' :: ds, rest)
  | cs => some ([], cs)

/-- The optional exponent of a number: `e` or `E`, an optional sign, at least one digit. -/
def scanExp : List Char → Option (List Char × List Char)
  | [] => some ([], [])
  | c :: cs =>
    if c = 'e' ∨ c = 'E' then
      let signed : List Char × List Char :=
        match cs with
        | s :: cs1 => if s = '+' ∨ s = '-' then ([s], cs1) else ([], cs)
        | [] => ([], [])
      match spanDigits signed.2 with
      | ([], _) => none
      | (ds, rest) => some (c :: (signed.1 ++ ds), rest)
    else some ([], c :: cs)

/-- A number literal, by the grammar of the JSON scanner. -/
def scanNumber (cs : List Char) : Option (List Char × List Char) :=
  let signed : List Char × List Char :=
    match cs with
    | '-' :: cs1 => (['-'], cs1)
    | _ => ([], cs)
  match scanIntPart signed.2 with
  | none => none
  | some (i, r1) =>
    match scanFrac r1 with
    | none => none
    | some (f, r2) =>
      match scanExp r2 with
      | none => none
      | some (e, r3) => some (signed.1 ++ i ++ f ++ e, r3)

/-- The constant `maxNestingDepth` of the JSON scanner. -/
def maxNestingDepth : Nat := 10000

/-- The literals `true`, `false` and `null` at the front of the text. -/
def parseLiteral : List Char → Option (JValue × List Char)
  | 't' :: 'r' :: 'u' :: 'e' :: rest => some (JValue.bool true, rest)
  | 'f' :: 'a' :: 'l' :: 's' :: 'e' :: rest => some (JValue.bool false, rest)
  | 'n' :: 'u' :: 'l' :: 'l' :: rest => some (JValue.null, rest)
  | _ => none

mutual

/-- One JSON value at the front of the text (white space already skipped), and the text after
it. The first argument bounds the recursion, the second is the number of enclosing arrays and
objects. -/
def parseValue : Nat → Nat → List Char → Option (JValue × List Char)
  | 0, _, _ => none
  | _ + 1, _, [] => none
  | fuel + 1, depth, c :: rest =>
    if c = '{' then
      if depth + 1 > maxNestingDepth then none
      else
        match skipWS rest with
        | '}' :: rest1 => some (JValue.obj [], rest1)
        | rest1 =>
          match parseMembers fuel (depth + 1) rest1 with
          | some (ms, rest2) => some (JValue.obj ms, rest2)
          | none => none
    else if c = '[' then
      if depth + 1 > maxNestingDepth then none
      else
        match skipWS rest with
        | ']' :: rest1 => some (JValue.arr [], rest1)
        | rest1 =>
          match parseElems fuel (depth + 1) rest1 with
          | some (xs, rest2) => some (JValue.arr xs, rest2)
          | none => none
    else if c = '"' then
      match parseString rest with
      | some (str, rest1) => some (JValue.str str, rest1)
      | none => none
    else
      match parseLiteral (c :: rest) with
      | some r => some r
      | none =>
        match scanNumber (c :: rest) with
        | some (raw, rest1) => some (JValue.num raw, rest1)
        | none => none

/-- The elements of an array from the first one (white space already skipped) to the closing
bracket. -/
def parseElems : Nat → Nat → List Char → Option (List JValue × List Char)
  | 0, _, _ => none
  | fuel + 1, depth, cs =>
    match parseValue fuel depth cs with
    | none => none
    | some (v, rest) =>
      match skipWS rest with
      | ']' :: rest1 => some ([v], rest1)
      | ',' :: rest1 =>
        match parseElems fuel depth (skipWS rest1) with
        | some (vs, rest2) => some (v :: vs, rest2)
        | none => none
      | _ => none

/-- The members of an object from the first key (white space already skipped) to the closing
brace. -/
def parseMembers : Nat → Nat → List Char → Option (List (List Char × JValue) × List Char)
  | 0, _, _ => none
  | fuel + 1, depth, cs =>
    match cs with
    | '"' :: rest =>
      match parseString rest with
      | none => none
      | some (key, rest1) =>
        match skipWS rest1 with
        | ':' :: rest2 =>
          match parseValue fuel depth (skipWS rest2) with
          | none => none
          | some (v, rest3) =>
            match skipWS rest3 with
            | '}' :: rest4 => some ([(key, v)], rest4)
            | ',' :: rest4 =>
              match parseMembers fuel depth (skipWS rest4) with
              | some (ms, rest5) => some ((key, v) :: ms, rest5)
              | none => none
            | _ => none
        | _ => none
    | _ => none

end

/-- The function `checkValid` of `encoding/json` together with the reading of the value: the
text must be exactly one JSON value, white space around it allowed. Each recursive call of the
reader follows at least one consumed character or another call that does, so twice the length
of the text bounds the recursion. -/
def parseJSON (data : String) : Option JValue :=
  match parseValue (2 * data.data.length + 2) 0 (skipWS data.data) with
  | some (v, rest) => if skipWS rest = [] then some v else none
  | none => none

/-- Whether an object key selects the field `URL` with tag `json:"url"`: `encoding/json` takes
the key that equals the name, or else one that equals it up to the case of its ASCII letters. -/
def keyIsURL (key : List Char) : Bool :=
  match key with
  | [a, b, c] => (a = 'u' ∨ a = 'U') ∧ (b = 'r' ∨ b = 'R') ∧ (c = 'l' ∨ c = 'L')
  | _ => false

/-- The decoding of the members of an object into `struct { URL string }`: the field so far and
the first type error so far. A string value of a matching key is stored, `null` is ignored, any
other value of a matching key is a type error (decoding goes on); other keys are skipped. -/
def storeMembers : List (List Char × JValue) → String × Option String → String × Option String
  | [], acc => acc
  | (key, v) :: ms, acc =>
    if keyIsURL key then
      match v with
      | JValue.str str => storeMembers ms (String.mk str, acc.2)
      | JValue.null => storeMembers ms acc
      | _ =>
        storeMembers ms
          (acc.1, acc.2.orElse fun _ => some "json: cannot unmarshal value into Go struct field .url of type string")
    else storeMembers ms acc

/-- Go's `json.Unmarshal(data, &resp)` for `var resp struct { URL string }` with tag
`json:"url"`, starting from the zero value: the field `resp.URL` afterwards and the error. -/
def jsonUnmarshalURL (data : String) : String × Option String :=
  match parseJSON data with
  | none => ("", some "json: syntax error")
  | some (JValue.obj ms) => storeMembers ms ("", none)
  | some JValue.null => ("", none)
  | some _ => ("", some "json: cannot unmarshal value into Go value of type struct")

/-! ## The install status -/

/-- Modelled from the spec: the recipe status type (declared in `recipe_status.go`, not among the
sources), with the ten statuses the spec lists. -/
inductive RecipeStatusType where
  | DETECTED | AVAILABLE | RECOMMENDED | PENDING | INSTALLING
  | INSTALLED | FAILED | SKIPPED | UNSUPPORTED | CANCELED
  deriving DecidableEq, Repr

/-- The fields of `types.OpenInstallationRecipe` the generator and its tests use. -/
structure OpenInstallationRecipe where
  Name : String
  DisplayName : String
  deriving DecidableEq, Repr

/-- The type `types.OpenInstallationSuccessLinkConfig`: link type tag and filter expression. -/
structure OpenInstallationSuccessLinkConfig where
  Type_ : String
  Filter : String
  deriving DecidableEq, Repr

/-- The fields of `RecipeStatus` the generator and its tests use. -/
structure RecipeStatus where
  DisplayName : String
  Name : String
  Status : RecipeStatusType
  EntityGUID : String
  deriving DecidableEq, Repr

/-- The fields of `InstallStatus` the generator and its tests use. -/
structure InstallStatus where
  recipesSelected : List OpenInstallationRecipe
  Installed : List RecipeStatus
  Failed : List RecipeStatus
  Statuses : List RecipeStatus
  EntityGUIDs : List String
  successLinkConfig : OpenInstallationSuccessLinkConfig
  deriving DecidableEq, Repr

/-- Modelled from the spec: `InstallStatus.AllSelectedRecipesInstalled` (defined in
`install_status.go`, not among the sources). The spec: "the predicate is true iff the selection
is non-empty AND every member is INSTALLED", a member being installed when it "has a
corresponding INSTALLED record"; the records are looked up by recipe name in the `Installed`
collection. -/
def InstallStatus.AllSelectedRecipesInstalled (s : InstallStatus) : Bool :=
  !s.recipesSelected.isEmpty &&
    s.recipesSelected.all fun r =>
      s.Installed.any fun st => st.Name == r.Name && st.Status == RecipeStatusType.INSTALLED

/-- Modelled from the spec: `InstallStatus.HostEntityGUID` (defined in `install_status.go`, not
among the sources). The spec: it "returns the first entity GUID recorded, or empty string if
none exists". -/
def InstallStatus.HostEntityGUID (s : InstallStatus) : String :=
  match s.EntityGUIDs with
  | g :: _ => g
  | [] => ""

/-! ## What the generator reads from outside -/

/-- The interface `utils.HTTPClientInterface` as far as the generator uses it: what
`Post(ctx, url, requestBody)` returns, an error or the bytes of the response. -/
structure HTTPClient where
  Post : String → String → Except String String

/-- The surroundings of one run of the generator. -/
structure Env where
  /-- The value of `configAPI.GetActiveProfileString(config.Region)`. -/
  region : String
  /-- The value of `configAPI.GetActiveProfileAccountID()`. -/
  accountID : Int
  /-- The value of `os.Getenv("NEW_RELIC_API_KEY")`; empty when the variable is not set. -/
  apiKey : String
  /-- The function `utils.NewHTTPClient`: the client for an API key. -/
  NewHTTPClient : String → HTTPClient

/-- The value of `region.Staging.String()` (constant `Staging` of the client library's package
`region`); the spec names it `staging`, and it is only compared ignoring case. -/
def regionStaging : String := "Staging"

/-- The value of `region.EU.String()` (constant `EU` of the client library's package
`region`). -/
def regionEU : String := "EU"

/-! ## `platform_link_generator.go` -/

/-- The struct `PlatformLinkGenerator`; no method reads its field. -/
structure PlatformLinkGenerator where
  httpClient : HTTPClient

/-- The variable `nrPlatformHostnames`, field `Staging`. -/
def nrPlatformHostnames.Staging : String := "staging-one.newrelic.com"

/-- The variable `nrPlatformHostnames`, field `US`. -/
def nrPlatformHostnames.US : String := "one.newrelic.com"

/-- The variable `nrPlatformHostnames`, field `EU`. -/
def nrPlatformHostnames.EU : String := "one.eu.newrelic.com"

/-- The function `nrPlatformHostname`: the host for the platform based on the region set. -/
def nrPlatformHostname (env : Env) : String :=
  let r := env.region
  if EqualFold r regionStaging then nrPlatformHostnames.Staging
  else if EqualFold r regionEU then nrPlatformHostnames.EU
  else nrPlatformHostnames.US

/-- The struct `referrerParamValue`; every field carries `omitempty`. -/
structure referrerParamValue where
  NerdletID : String
  Referrer : String
  EntityGUID : String

/-- The members `json.Marshal` writes for a `referrerParamValue`: the fields in the order of
their declaration under their JSON names, a field with `omitempty` left out when it is empty. -/
def referrerParamValue.members (p : referrerParamValue) : Members :=
  [("nerdletId", p.NerdletID), ("referrer", p.Referrer), ("entityGuid", p.EntityGUID)].filter
    fun kv => kv.2 ≠ ""

/-- Go's `json.Marshal` on a `referrerParamValue`: text and error (a struct of strings never
fails to encode). -/
def jsonMarshal (p : referrerParamValue) : String × Option String :=
  (jsonObject p.members, none)

/-- The function `generateReferrerParam`. -/
def generateReferrerParam (entityGUID : String) : String :=
  let p : referrerParamValue :=
    { NerdletID := "nr1-install-newrelic.installation-plan", Referrer := "newrelic-cli",
      EntityGUID := "" }
  let p := if entityGUID ≠ "" then { p with EntityGUID := entityGUID } else p
  match jsonMarshal p with
  | (_, some _) => ""
  | (stringifiedParam, none) => stringifiedParam

/-- The function `generateShortNewRelicURL`: the string and the error it returns. -/
def generateShortNewRelicURL (env : Env) (longURL : String) : String × Option String :=
  let shortURLServiceURL := "https://urly.service.newrelic.com/"
  let httpClient := env.NewHTTPClient env.apiKey
  let reqBody := Sprintf "\x7b\"url\": \"%s\"\x7d" [FmtArg.str longURL]
  match httpClient.Post shortURLServiceURL reqBody with
  | Except.error err => (longURL, some err)
  | Except.ok respBytes =>
    match jsonUnmarshalURL respBytes with
    | (_, some err) => ("", some err)
    | (url, none) => (url, none)

/-- The function `generateExplorerURL`. -/
def generateExplorerURL (env : Env) (status : InstallStatus) : String :=
  Sprintf "https://%s/launcher/nr1-core.explorer?platform[filters]=%s&platform[accountId]=%d&cards[0]=%s"
    [FmtArg.str (nrPlatformHostname env),
     FmtArg.str (Base64Encode status.successLinkConfig.Filter),
     FmtArg.int env.accountID,
     FmtArg.str (Base64Encode (generateReferrerParam status.HostEntityGUID))]

/-- The function `generateExplorerLink`. -/
def generateExplorerLink (env : Env) (status : InstallStatus) : String :=
  let longURL := generateExplorerURL env status
  match generateShortNewRelicURL env longURL with
  | (shortURL, err) => if err ≠ none ∨ shortURL = "" then longURL else shortURL

/-- The function `generateEntityURL`. -/
def generateEntityURL (env : Env) (entityGUID : String) : String :=
  Sprintf "https://%s/redirect/entity/%s" [FmtArg.str (nrPlatformHostname env), FmtArg.str entityGUID]

/-- The function `generateEntityLink`. -/
def generateEntityLink (env : Env) (entityGUID : String) : String :=
  let longURL := generateEntityURL env entityGUID
  match generateShortNewRelicURL env longURL with
  | (shortURL, err) => if err ≠ none ∨ shortURL = "" then longURL else shortURL

/-- The method `PlatformLinkGenerator.GenerateExplorerLink`. -/
def PlatformLinkGenerator.GenerateExplorerLink (_g : PlatformLinkGenerator) (env : Env)
    (status : InstallStatus) : String :=
  generateExplorerLink env status

/-- The method `PlatformLinkGenerator.GenerateEntityLink`. -/
def PlatformLinkGenerator.GenerateEntityLink (_g : PlatformLinkGenerator) (env : Env)
    (entityGUID : String) : String :=
  generateEntityLink env entityGUID

/-- The method `PlatformLinkGenerator.GenerateRedirectURL`. -/
def PlatformLinkGenerator.GenerateRedirectURL (g : PlatformLinkGenerator) (env : Env)
    (status : InstallStatus) : String :=
  if status.AllSelectedRecipesInstalled then g.GenerateEntityLink env status.HostEntityGUID
  else g.GenerateExplorerLink env status

/-! ## The referrer parameter on arbitrary Go strings -/

/-- One step of the loop by which `encoding/json` reads a Go string
(`utf8.DecodeRuneInString`): a well-formed rune, or a byte (`0x80` to `0xFF`) that is not part
of a well-formed UTF-8 sequence, which the decoder reports as `RuneError` of width 1. -/
inductive GoRune where
  | rune (c : Char)
  | invalid (b : Nat)
  deriving DecidableEq, Repr

/-- A Go string, which need not be well-formed UTF-8, as the sequence of those steps. -/
abbrev GoString := List GoRune

/-- A well-formed string as a Go string. -/
def GoString.ofString (s : String) : GoString := s.data.map GoRune.rune

/-- The bytes of a Go string. -/
def GoString.bytes (g : GoString) : List Nat :=
  g.flatMap fun r =>
    match r with
    | GoRune.rune c => utf8EncodeRune c.toNat
    | GoRune.invalid b => [b]

/-- What `encodeState.string` (with HTML escaping) writes for one step of its loop over a Go
string. A byte that is not well-formed UTF-8 is written as the six characters of the escape of
U+FFFD. `shortBF` tells the release of the encoder: since Go 1.22 U+0008 and U+000C are written
with the short escapes `\b` and `\f`, before that as `\u0008` and `\u000c`; every other rune
is written as `jsonEscapeChar` says. -/
def jsonEscapeRune (shortBF : Bool) (r : GoRune) : List Char :=
  match r with
  | GoRune.invalid _ => ['\\', 'u', 'f', 'f', 'f', 'd']
  | GoRune.rune c =>
    if shortBF = true ∧ c.toNat = 8 then ['\\', 'b']
    else if shortBF = true ∧ c.toNat = 12 then ['\\', 'f']
    else jsonEscapeChar c

/-- The JSON string literal `encoding/json` writes for a Go string. -/
def jsonQuoteGo (shortBF : Bool) (g : GoString) : List Char :=
  '"' :: (g.flatMap (jsonEscapeRune shortBF) ++ ['"'])

/-- The members of a JSON object in the order they are written: name and Go string value. -/
abbrev GoMembers := List (String × GoString)

/-- The loop of the struct encoder of `encoding/json` over the members to write, as
`writeMembers`, for values that are Go strings. -/
def writeGoMembers (shortBF : Bool) (next : Char) : GoMembers → List Char
  | [] => if next = '{' then ['{', '}'] else ['}']
  | kv :: ms =>
    next :: (jsonQuote kv.1 ++ ':' :: (jsonQuoteGo shortBF kv.2 ++ writeGoMembers shortBF ',' ms))

/-- The text of a JSON object with the given members, as `encoding/json` writes it. -/
def jsonObjectGo (shortBF : Bool) (ms : GoMembers) : String :=
  String.mk (writeGoMembers shortBF '{' ms)

namespace Bytewise

/-- The struct `referrerParamValue`; every field carries `omitempty`. -/
structure referrerParamValue where
  NerdletID : GoString
  Referrer : GoString
  EntityGUID : GoString

/-- The members `json.Marshal` writes for a `referrerParamValue`: the fields in the order of
their declaration under their JSON names, a field with `omitempty` left out when it is empty. -/
def referrerParamValue.members (p : referrerParamValue) : GoMembers :=
  [("nerdletId", p.NerdletID), ("referrer", p.Referrer), ("entityGuid", p.EntityGUID)].filter
    fun kv => !kv.2.isEmpty

/-- Go's `json.Marshal` on a `referrerParamValue`: text and error (a struct of strings never
fails to encode). -/
def jsonMarshal (shortBF : Bool) (p : referrerParamValue) : String × Option String :=
  (jsonObjectGo shortBF p.members, none)

/-- The function `generateReferrerParam`, for an entity GUID that is any Go string. -/
def generateReferrerParam (shortBF : Bool) (entityGUID : GoString) : String :=
  let p : referrerParamValue :=
    { NerdletID := GoString.ofString "nr1-install-newrelic.installation-plan",
      Referrer := GoString.ofString "newrelic-cli",
      EntityGUID := [] }
  let p := if !entityGUID.isEmpty then { p with EntityGUID := entityGUID } else p
  match jsonMarshal shortBF p with
  | (_, some _) => ""
  | (stringifiedParam, none) => stringifiedParam

end Bytewise

/-! ## Specification-level notions -/

/-- Unicode simple case folding, for every rune whose folding is an ASCII letter: `A`-`Z`,
U+017F (long s) and U+212A (Kelvin sign) go to the lower-case ASCII letter; other runes are
their own key. -/
def foldKey (c : Nat) : Nat :=
  if 0x41 ≤ c ∧ c ≤ 0x5A then c + 32
  else if c = 0x17F then 0x73
  else if c = 0x212A then 0x6B
  else c

/-- Whether a string equals an ASCII word ignoring case: the same number of runes, and at every
position the same case-folding key. -/
def equalsIgnoringCase (r word : String) : Bool :=
  decide (r.data.map (fun c => foldKey c.toNat) = word.data.map (fun c => foldKey c.toNat))

/-- The piece the scanner reads back from what `jsonEscapeChar` writes for a rune: the code
unit of the `\u` escape when the rune is written as one, the rune itself otherwise. -/
def escapeUnit (c : Char) : StrUnit :=
  match jsonEscapeChar c with
  | '\\' :: 'u' :: _ => StrUnit.esc c.toNat
  | _ => StrUnit.rune c

/-- The rune a JSON reader gets back for one step of a Go string: the rune itself, and U+FFFD
for a byte that is not well-formed UTF-8. -/
def GoRune.decoded (r : GoRune) : Char :=
  match r with
  | GoRune.rune c => c
  | GoRune.invalid _ => Char.ofNat 0xFFFD

/-- The piece the scanner reads back from what `jsonEscapeRune` writes for one step. -/
def escapeUnitGo (shortBF : Bool) (r : GoRune) : StrUnit :=
  match r with
  | GoRune.invalid _ => StrUnit.esc 0xFFFD
  | GoRune.rune c =>
    if shortBF = true ∧ (c.toNat = 8 ∨ c.toNat = 12) then StrUnit.rune c else escapeUnit c

/-- The JSON value of an object with string members: each value is the Go string with its
bytes that are not well-formed UTF-8 replaced by U+FFFD. -/
def goMembersValue (ms : GoMembers) : JValue :=
  JValue.obj (ms.map fun kv => (kv.1.data, JValue.str (kv.2.map GoRune.decoded)))

/-- Whether a text starts with the given characters. -/
def startsWith : List Char → List Char → Bool
  | _, [] => true
  | [], _ :: _ => false
  | c :: text, d :: part => c == d && startsWith text part

/-- Whether a text contains the given characters somewhere. -/
def containsChars : List Char → List Char → Bool
  | [], part => startsWith [] part
  | c :: text, part => startsWith (c :: text) part || containsChars text part

/-- Whether a string contains another as a substring. -/
def containsText (text part : String) : Bool := containsChars text.data part.data

/-- The request body the spec gives for the shortening service: the JSON text
`{"url": "<longURL>"}`. -/
def shortenRequestBody (longURL : String) : String :=
  "\x7b\"url\": \"" ++ longURL ++ "\"\x7d"

/-- The shortening call for a long URL as the spec describes it: one `POST` of the request body
to the shortening endpoint through the client for the configured API key; its outcome is a
reported error or the bytes of the response. -/
def shortenCall (env : Env) (longURL : String) : Except String String :=
  (env.NewHTTPClient env.apiKey).Post "https://urly.service.newrelic.com/"
    (shortenRequestBody longURL)

/-- The best-effort contract of a link built from `long` with the help of the shortening
service: the long URL on every failure of the call, the short URL otherwise.
* the call reports an error (transport error, or a status the client reports as an error);
* the response does not decode into the expected JSON object;
* the response decodes and its `url` field is empty;
* the response decodes and its `url` field is not empty: only then the link is the short URL. -/
def BestEffortShortened (env : Env) (long link : String) : Prop :=
  (∀ err, shortenCall env long = Except.error err → link = long) ∧
  (∀ body url err, shortenCall env long = Except.ok body →
      jsonUnmarshalURL body = (url, some err) → link = long) ∧
  (∀ body, shortenCall env long = Except.ok body →
      jsonUnmarshalURL body = ("", none) → link = long) ∧
  (∀ body url, shortenCall env long = Except.ok body →
      jsonUnmarshalURL body = (url, none) → url ≠ "" → link = url) ∧
  (link ≠ long → ∃ body, shortenCall env long = Except.ok body ∧
      jsonUnmarshalURL body = (link, none) ∧ link ≠ "")

/-- The shortening call yields no short URL for `long`: whenever it is answered and the answer
decodes, the `url` field is empty. (It may also fail, or be answered with text that does not
decode.) -/
def NoShortURL (env : Env) (long : String) : Prop :=
  ∀ body url, shortenCall env long = Except.ok body → jsonUnmarshalURL body = (url, none) → url = ""

/-- The unit tests' status of a successful install: one selected recipe, installed, with the
entity `entityGUID`. -/
def installedStatus (entityGUID : String) : InstallStatus :=
  { recipesSelected := [{ Name := "infrastructure-agent-installer", DisplayName := "Infrastructure Agent" }],
    Installed := [{ DisplayName := "Infrastructure Agent", Name := "infrastructure-agent-installer",
                    Status := RecipeStatusType.INSTALLED, EntityGUID := entityGUID }],
    Failed := [], Statuses := [], EntityGUIDs := [entityGUID],
    successLinkConfig := { Type_ := "", Filter := "" } }

/-- The unit tests' status of a partly successful install: two selected recipes, the first
installed with entity `ABC123`, the second failed. -/
def mixedStatus : InstallStatus :=
  { recipesSelected :=
      [{ Name := "infrastructure-agent-installer", DisplayName := "Infrastructure Agent" },
       { Name := "logs-integration", DisplayName := "Logs integration" }],
    Installed := [{ DisplayName := "Infrastructure Agent", Name := "infrastructure-agent-installer",
                    Status := RecipeStatusType.INSTALLED, EntityGUID := "ABC123" }],
    Failed := [{ DisplayName := "Logs integration", Name := "logs-integration",
                 Status := RecipeStatusType.FAILED, EntityGUID := "" }],
    Statuses := [{ DisplayName := "Infrastructure Agent", Name := "infrastructure-agent-installer",
                   Status := RecipeStatusType.INSTALLED, EntityGUID := "ABC123" },
                 { DisplayName := "Logs integration", Name := "logs-integration",
                   Status := RecipeStatusType.FAILED, EntityGUID := "" }],
    EntityGUIDs := ["ABC123"],
    successLinkConfig := { Type_ := "", Filter := "" } }

/-- The unit tests' status of a failed install: one selected recipe, failed, no entity. -/
def failedStatus : InstallStatus :=
  { recipesSelected := [{ Name := "infrastructure-agent-installer", DisplayName := "Infrastructure Agent" }],
    Installed := [],
    Failed := [{ DisplayName := "Infrastructure Agent", Name := "infrastructure-agent-installer",
                 Status := RecipeStatusType.FAILED, EntityGUID := "" }],
    Statuses := [{ DisplayName := "Infrastructure Agent", Name := "infrastructure-agent-installer",
                   Status := RecipeStatusType.FAILED, EntityGUID := "" }],
    EntityGUIDs := [],
    successLinkConfig := { Type_ := "", Filter := "" } }

/-- An HTTP client whose every `Post` fails with a transport error. -/
def failingClient : HTTPClient := { Post := fun _ _ => Except.error "connection refused" }

/-- An HTTP client whose every `Post` is answered with the given body. -/
def answeringClient (body : String) : HTTPClient := { Post := fun _ _ => Except.ok body }

/-- No region and no API key set, account 12345, and a shortening service that cannot be
reached. -/
def envUnreachable : Env :=
  { region := "", accountID := 12345, apiKey := "", NewHTTPClient := fun _ => failingClient }

/-- No region and no API key set, account 12345, and a shortening service that answers every
request, whatever its key, with the short URL `https://nr.io/abc`. -/
def envNoKeyAnswering : Env :=
  { region := "", accountID := 12345, apiKey := "",
    NewHTTPClient := fun _ => answeringClient "\x7b\"url\":\"https://nr.io/abc\"\x7d" }

/-- No region set, an API key set, account 12345, and a shortening service that answers every
request with the short URL `https://nr.io/abc`. -/
def envKeyedAnswering : Env :=
  { region := "", accountID := 12345, apiKey := "NRAK-0000",
    NewHTTPClient := fun _ => answeringClient "\x7b\"url\":\"https://nr.io/abc\"\x7d" }

/-- No region set, an API key set, account 12345, and a shortening service that answers every
request with a JSON object that has no `url` member. -/
def envKeyedRefused : Env :=
  { region := "", accountID := 12345, apiKey := "NRAK-0000",
    NewHTTPClient := fun _ => answeringClient "\x7b\"error\":\"quota exceeded\"\x7d" }

/-- No region set, an API key set, account 12345, and a shortening service that answers with
a page that is not JSON. -/
def envGarbled : Env :=
  { region := "", accountID := 12345, apiKey := "NRAK-0000",
    NewHTTPClient := fun _ => answeringClient "<html>502 Bad Gateway</html>" }


/-! ## Region resolution -/

theorem simpleFold_upper (b : Nat) (h1 : 0x41 ≤ b) (h2 : b ≤ 0x5A) : simpleFold b = b + 32 := by
  unfold simpleFold; split_ifs <;> omega

theorem simpleFold_lower (b : Nat) (h1 : 0x61 ≤ b) (h2 : b ≤ 0x7A) (hk : b ≠ 0x6B)
    (hs : b ≠ 0x73) : simpleFold b = b - 32 := by
  unfold simpleFold; split_ifs <;> omega

theorem simpleFold_other (b : Nat) (hb : b < 128) (h1 : ¬ (0x41 ≤ b ∧ b ≤ 0x5A))
    (h2 : ¬ (0x61 ≤ b ∧ b ≤ 0x7A)) : simpleFold b = b := by
  unfold simpleFold; split_ifs <;> omega

/-- Folding an ASCII rune up to a non-ASCII rune succeeds exactly for the Kelvin sign against
`K`, `k` and for the long s against `S`, `s`. -/
theorem foldLoop_ascii (a b : Nat) (hb : b < 128) (ha : 128 ≤ a) :
    foldLoop 4 b a (simpleFold b) = a ↔
      (a = 0x212A ∧ (b = 0x4B ∨ b = 0x6B)) ∨ (a = 0x17F ∧ (b = 0x53 ∨ b = 0x73)) := by
  by_cases hK : b = 0x4B
  · subst hK; simp [foldLoop, simpleFold]; split_ifs <;> omega
  by_cases hk : b = 0x6B
  · subst hk; simp [foldLoop, simpleFold]; split_ifs <;> omega
  by_cases hS : b = 0x53
  · subst hS; simp [foldLoop, simpleFold]; split_ifs <;> omega
  by_cases hs : b = 0x73
  · subst hs; simp [foldLoop, simpleFold]; split_ifs <;> omega
  by_cases hu : 0x41 ≤ b ∧ b ≤ 0x5A
  · have e1 := simpleFold_upper b hu.1 hu.2
    have e2 := simpleFold_lower (b + 32) (by omega) (by omega) (by omega) (by omega)
    have e3 : b + 32 - 32 = b := by omega
    simp only [foldLoop, e1, e2, e3]
    split_ifs <;> omega
  by_cases hl : 0x61 ≤ b ∧ b ≤ 0x7A
  · have e1 := simpleFold_lower b hl.1 hl.2 hk hs
    have e2 := simpleFold_upper (b - 32) (by omega) (by omega)
    have e3 : b - 32 + 32 = b := by omega
    simp only [foldLoop, e1, e2, e3]
    split_ifs <;> omega
  · have e1 := simpleFold_other b hb hu hl
    simp only [foldLoop, e1]
    split_ifs <;> omega

theorem foldLoop_self (n sr tr : Nat) : foldLoop n sr tr sr = sr := by
  cases n <;> simp [foldLoop]

/-- The bound of `foldLoop` is not reached: from an ASCII rune the loop of `strings.EqualFold`
is back at its start after at most three iterations, so a larger bound changes nothing. -/
theorem foldLoop_stable (n a b : Nat) (hb : b < 128) :
    foldLoop (n + 3) b a (simpleFold b) = foldLoop 3 b a (simpleFold b) := by
  by_cases hK : b = 0x4B
  · subst hK; simp [foldLoop, simpleFold, foldLoop_self]
  by_cases hk : b = 0x6B
  · subst hk; simp [foldLoop, simpleFold, foldLoop_self]
  by_cases hS : b = 0x53
  · subst hS; simp [foldLoop, simpleFold, foldLoop_self]
  by_cases hs : b = 0x73
  · subst hs; simp [foldLoop, simpleFold, foldLoop_self]
  by_cases hu : 0x41 ≤ b ∧ b ≤ 0x5A
  · have e1 := simpleFold_upper b hu.1 hu.2
    have e2 := simpleFold_lower (b + 32) (by omega) (by omega) (by omega) (by omega)
    have e3 : b + 32 - 32 = b := by omega
    simp [foldLoop, e1, e2, e3, foldLoop_self]
  by_cases hl : 0x61 ≤ b ∧ b ≤ 0x7A
  · have e1 := simpleFold_lower b hl.1 hl.2 hk hs
    have e2 := simpleFold_upper (b - 32) (by omega) (by omega)
    have e3 : b - 32 + 32 = b := by omega
    simp [foldLoop, e1, e2, e3, foldLoop_self]
  · have e1 := simpleFold_other b hb hu hl
    simp [foldLoop, e1]

/-- Against an ASCII rune, one step of `strings.EqualFold` compares case-folding keys. -/
theorem equalFoldRune_ascii (a b : Nat) (hb : b < 128) :
    equalFoldRune a b = decide (foldKey a = foldKey b) := by
  by_cases hab : b = a
  · subst hab; simp [equalFoldRune]
  by_cases ha : a < 128
  · unfold equalFoldRune foldKey
    rw [if_neg hab]
    have : (if b < a then a else b) < 128 := by split_ifs <;> omega
    simp only [this, if_true]
    rw [decide_eq_decide]
    split_ifs <;> omega
  · unfold equalFoldRune
    rw [if_neg hab]
    have h1 : b < a := by omega
    simp only [h1, if_true]
    have h2 : ¬ a < 128 := ha
    rw [if_neg h2, decide_eq_decide, foldLoop_ascii a b hb (by omega)]
    unfold foldKey
    split_ifs <;> omega

/-- Against an ASCII word, `strings.EqualFold` compares the lists of case-folding keys. -/
theorem equalFoldAux_ascii (t : List Char) (ht : ∀ c ∈ t, c.toNat < 128) (s : List Char) :
    equalFoldAux s t
      = decide (s.map (fun c => foldKey c.toNat) = t.map (fun c => foldKey c.toNat)) := by
  induction t generalizing s with
  | nil => cases s <;> simp [equalFoldAux]
  | cons b t ih =>
    cases s with
    | nil => simp [equalFoldAux]
    | cons a s =>
      have hb : b.toNat < 128 := ht b (List.mem_cons_self b t)
      have ih1 := ih (fun c hc => ht c (List.mem_cons_of_mem b hc)) s
      simp only [equalFoldAux, equalFoldRune_ascii a.toNat b.toNat hb, ih1, List.map_cons,
        List.cons.injEq]
      by_cases h1 : foldKey a.toNat = foldKey b.toNat <;> simp [h1]

theorem EqualFold_staging (r : String) : EqualFold r regionStaging = equalsIgnoringCase r "staging" := by
  unfold EqualFold equalsIgnoringCase
  rw [equalFoldAux_ascii _ (by decide)]
  rfl

theorem EqualFold_eu (r : String) : EqualFold r regionEU = equalsIgnoringCase r "EU" := by
  unfold EqualFold equalsIgnoringCase
  rw [equalFoldAux_ascii _ (by decide)]
  rfl

theorem not_eu_and_staging (r : String) :
    ¬ (equalsIgnoringCase r "EU" = true ∧ equalsIgnoringCase r "staging" = true) := by
  unfold equalsIgnoringCase
  rintro ⟨h1, h2⟩
  have e1 := congrArg List.length (of_decide_eq_true h1)
  have e2 := congrArg List.length (of_decide_eq_true h2)
  simp at e1 e2
  omega

/-- On ASCII runes the case-folding key is the lower-case letter of `Char.toLower`. -/
theorem toLower_toNat (c : Char) (hc : c.toNat < 128) : c.toLower.toNat = foldKey c.toNat := by
  unfold Char.toLower foldKey
  by_cases h : c.toNat ≥ 65 ∧ c.toNat ≤ 90
  · have h' : 0x41 ≤ c.toNat ∧ c.toNat ≤ 0x5A := h
    simp only [h, h', and_self, if_true]
    have hv : (c.toNat + 32).isValidChar := Or.inl (by omega)
    unfold Char.ofNat
    rw [dif_pos hv]
    rfl
  · have h' : ¬ (0x41 ≤ c.toNat ∧ c.toNat ≤ 0x5A) := h
    simp only [h, h', if_false]
    rw [if_neg (by omega), if_neg (by omega)]

theorem Char_toNat_injective : Function.Injective Char.toNat := by
  intro a b h
  rw [← Char.ofNat_toNat a, ← Char.ofNat_toNat b, h]

/-- For ASCII strings, equality ignoring case is equality of the lower-cased strings. -/
theorem equalsIgnoringCase_ascii (r w : String) (hr : ∀ c ∈ r.data, c.toNat < 128)
    (hw : ∀ c ∈ w.data, c.toNat < 128) :
    equalsIgnoringCase r w = true ↔ r.data.map Char.toLower = w.data.map Char.toLower := by
  unfold equalsIgnoringCase
  rw [decide_eq_true_iff]
  have e1 : r.data.map (fun c => foldKey c.toNat) = (r.data.map Char.toLower).map Char.toNat := by
    rw [List.map_map]
    exact List.map_congr_left fun c hc => (toLower_toNat c (hr c hc)).symm
  have e2 : w.data.map (fun c => foldKey c.toNat) = (w.data.map Char.toLower).map Char.toNat := by
    rw [List.map_map]
    exact List.map_congr_left fun c hc => (toLower_toNat c (hw c hc)).symm
  rw [e1, e2]
  exact (List.map_injective_iff.mpr Char_toNat_injective).eq_iff

/-- Claim C7. For every region string read from the active profile, `nrPlatformHostname`
returns `one.eu.newrelic.com` if the region equals `EU` ignoring case, `staging-one.newrelic.com`
if it equals `staging` ignoring case, and `one.newrelic.com` for every other value, the empty
(unset) string included. Ignoring case is Unicode simple case folding, as in Go's
`strings.EqualFold` (besides `S` and `s`, the long s U+017F matches the `s` of `staging`); for
an ASCII region it is equality of the lower-cased region with `eu`, with `staging`. -/
theorem nrPlatformHostname_by_region (env : Env) :
    nrPlatformHostname env =
      (if equalsIgnoringCase env.region "EU" then "one.eu.newrelic.com"
       else if equalsIgnoringCase env.region "staging" then "staging-one.newrelic.com"
       else "one.newrelic.com") ∧
    nrPlatformHostname { env with region := "" } = "one.newrelic.com" ∧
    ((∀ c ∈ env.region.data, c.toNat < 128) →
      (nrPlatformHostname env = "one.eu.newrelic.com"
        ↔ env.region.data.map Char.toLower = "eu".data) ∧
      (nrPlatformHostname env = "staging-one.newrelic.com"
        ↔ env.region.data.map Char.toLower = "staging".data)) := by
  have main : nrPlatformHostname env =
      (if equalsIgnoringCase env.region "EU" then "one.eu.newrelic.com"
       else if equalsIgnoringCase env.region "staging" then "staging-one.newrelic.com"
       else "one.newrelic.com") := by
    unfold nrPlatformHostname
    simp only [EqualFold_staging, EqualFold_eu]
    have := not_eu_and_staging env.region
    by_cases h1 : equalsIgnoringCase env.region "EU" = true <;>
      by_cases h2 : equalsIgnoringCase env.region "staging" = true <;>
      simp_all [nrPlatformHostnames.Staging, nrPlatformHostnames.EU, nrPlatformHostnames.US]
  refine ⟨main, rfl, ?_⟩
  intro hascii
  have heu := equalsIgnoringCase_ascii env.region "EU" hascii (by decide)
  have hst := equalsIgnoringCase_ascii env.region "staging" hascii (by decide)
  have hboth := not_eu_and_staging env.region
  have l1 : "EU".data.map Char.toLower = "eu".data := by decide
  have l2 : "staging".data.map Char.toLower = "staging".data := by decide
  rw [l1] at heu
  rw [l2] at hst
  rw [main, ← heu, ← hst]
  by_cases h1 : equalsIgnoringCase env.region "EU" = true <;>
    by_cases h2 : equalsIgnoringCase env.region "staging" = true
  · exact absurd ⟨h1, h2⟩ hboth
  · simp only [h1, h2, if_true]
    exact ⟨by simp, by decide⟩
  · simp only [h1, h2, if_true, if_false]
    exact ⟨by decide, by simp⟩
  · simp only [h1, h2, if_false]
    exact ⟨by decide, by decide⟩


/-! ## Formatting -/

theorem digit_eq_digitChar : ∀ d < 10, Char.ofNat (48 + d) = Nat.digitChar d := by decide

theorem natDigits_eq_toDigitsCore (fuel n : Nat) (acc : List Char) :
    natDigits fuel n acc = Nat.toDigitsCore 10 fuel n acc := by
  induction fuel generalizing n acc with
  | zero => rfl
  | succ fuel ih =>
    simp only [natDigits, Nat.toDigitsCore, ih, digit_eq_digitChar (n % 10) (Nat.mod_lt n (by omega))]

/-- The verb `%d` prints the usual decimal numeral of an integer. -/
theorem formatInt_eq (i : Int) : String.mk (formatInt i) = toString i := by
  cases i with
  | ofNat n =>
    simp only [formatInt, natDigits_eq_toDigitsCore]
    rfl
  | negSucc n =>
    simp only [formatInt, natDigits_eq_toDigitsCore]
    rfl

theorem formatInt_data (i : Int) : formatInt i = (toString i).data := by
  rw [← formatInt_eq]

/-- The long entity URL, as a concatenation. -/
theorem generateEntityURL_eq (env : Env) (entityGUID : String) :
    generateEntityURL env entityGUID
      = "https://" ++ nrPlatformHostname env ++ "/redirect/entity/" ++ entityGUID := by
  apply String.ext
  simp [generateEntityURL, Sprintf, sprintfAux]

/-- The long explorer URL, as a concatenation. -/
theorem generateExplorerURL_eq (env : Env) (status : InstallStatus) :
    generateExplorerURL env status
      = "https://" ++ nrPlatformHostname env ++ "/launcher/nr1-core.explorer?platform[filters]="
        ++ Base64Encode status.successLinkConfig.Filter ++ "&platform[accountId]="
        ++ toString env.accountID ++ "&cards[0]="
        ++ Base64Encode (generateReferrerParam status.HostEntityGUID) := by
  apply String.ext
  simp [generateExplorerURL, Sprintf, sprintfAux, formatInt_data]


/-! ## Shortening -/

/-- The body `generateShortNewRelicURL` posts is the request body of the spec. -/
theorem reqBody_eq (longURL : String) :
    Sprintf "\x7b\"url\": \"%s\"\x7d" [FmtArg.str longURL] = shortenRequestBody longURL := by
  apply String.ext
  simp [Sprintf, sprintfAux, shortenRequestBody]

/-- The results of `generateShortNewRelicURL`, by the outcome of the call. -/
theorem generateShortNewRelicURL_eq (env : Env) (longURL : String) :
    generateShortNewRelicURL env longURL =
      match shortenCall env longURL with
      | Except.error err => (longURL, some err)
      | Except.ok body =>
        match jsonUnmarshalURL body with
        | (_, some err) => ("", some err)
        | (url, none) => (url, none) := by
  simp only [generateShortNewRelicURL, shortenCall, reqBody_eq]

/-- What both link functions do with the result of `generateShortNewRelicURL`. -/
theorem bestEffort_of_short (env : Env) (long link : String)
    (h : link = (match generateShortNewRelicURL env long with
      | (shortURL, err) => if err ≠ none ∨ shortURL = "" then long else shortURL)) :
    BestEffortShortened env long link := by
  subst h
  unfold BestEffortShortened
  cases hc : shortenCall env long with
  | error e => simp [generateShortNewRelicURL_eq, hc]
  | ok body =>
    rcases hj : jsonUnmarshalURL body with ⟨url, _ | e⟩
    · have hl : (match generateShortNewRelicURL env long with
          | (shortURL, err) => if err ≠ none ∨ shortURL = "" then long else shortURL)
          = if url = "" then long else url := by
        simp [generateShortNewRelicURL_eq, hc, hj]
      rw [hl]
      refine ⟨?_, ?_, ?_, ?_, ?_⟩
      · intro err h
        cases h
      · intro b u e hb hbu
        cases hb
        rw [hj] at hbu
        cases hbu
      · intro b hb hbu
        cases hb
        rw [hj] at hbu
        cases hbu
        simp
      · intro b u hb hbu hne
        cases hb
        rw [hj] at hbu
        cases hbu
        simp [hne]
      · intro hne
        by_cases hu : url = ""
        · simp [hu] at hne
        · exact ⟨body, rfl, by simp [hj, hu], by simp [hu]⟩
    · have hl : (match generateShortNewRelicURL env long with
          | (shortURL, err) => if err ≠ none ∨ shortURL = "" then long else shortURL) = long := by
        simp [generateShortNewRelicURL_eq, hc, hj]
      rw [hl]
      refine ⟨?_, ?_, ?_, ?_, ?_⟩
      · intro err h
        cases h
      · intro b u e hb hbu
        rfl
      · intro b hb hbu
        rfl
      · intro b u hb hbu hne
        cases hb
        rw [hj] at hbu
        cases hbu
      · intro hne
        exact absurd rfl hne

theorem generateEntityLink_bestEffort (env : Env) (entityGUID : String) :
    BestEffortShortened env (generateEntityURL env entityGUID) (generateEntityLink env entityGUID) :=
  bestEffort_of_short env _ _ rfl

theorem generateExplorerLink_bestEffort (env : Env) (status : InstallStatus) :
    BestEffortShortened env (generateExplorerURL env status) (generateExplorerLink env status) :=
  bestEffort_of_short env _ _ rfl


/-! ## Base64 -/

theorem b64Val_b64Char : ∀ n < 64, b64Val (b64Char n) = some n := by decide

theorem b64Char_ne_pad : ∀ n < 64, b64Char n ≠ '=' := by decide

/-- Decoding undoes encoding, on bytes. -/
theorem b64_roundtrip_bytes (bs : List Nat) (h : ∀ b ∈ bs, b < 256) :
    b64DecodeChars (b64EncodeBytes bs) = some bs := by
  induction bs using b64EncodeBytes.induct with
  | case1 a b c rest ih =>
    have ha : a < 256 := h a (by simp)
    have hb : b < 256 := h b (by simp)
    have hc : c < 256 := h c (by simp)
    have ih1 := ih (fun x hx => h x (by simp [hx]))
    have p4 := b64Char_ne_pad (c % 64) (by omega)
    have v1 := b64Val_b64Char (a / 4) (by omega)
    have v2 := b64Val_b64Char (a % 4 * 16 + b / 16) (by omega)
    have v3 := b64Val_b64Char (b % 16 * 4 + c / 64) (by omega)
    have v4 := b64Val_b64Char (c % 64) (by omega)
    simp only [b64EncodeBytes]
    rw [b64DecodeChars.eq_4 _ _ _ _ _ (fun _ h4 _ => p4 h4) (fun h4 _ => p4 h4)]
    simp only [v1, v2, v3, v4, ih1]
    congr 2
    · omega
    · congr 1
      · omega
      · congr 1
        omega
  | case2 a b =>
    have ha : a < 256 := h a (by simp)
    have hb : b < 256 := h b (by simp)
    have p3 := b64Char_ne_pad (b % 16 * 4) (by omega)
    have v1 := b64Val_b64Char (a / 4) (by omega)
    have v2 := b64Val_b64Char (a % 4 * 16 + b / 16) (by omega)
    have v3 := b64Val_b64Char (b % 16 * 4) (by omega)
    simp only [b64EncodeBytes]
    rw [b64DecodeChars.eq_3 _ _ _ (fun h3 => p3 h3)]
    simp only [v1, v2, v3]
    have e : b % 16 * 4 % 4 = 0 := by omega
    simp only [e, if_true]
    congr 2
    · omega
    · congr 1
      omega
  | case3 a =>
    have ha : a < 256 := h a (by simp)
    have v1 := b64Val_b64Char (a / 4) (by omega)
    have v2 := b64Val_b64Char (a % 4 * 16) (by omega)
    simp only [b64EncodeBytes, b64DecodeChars, v1, v2]
    have e : a % 4 * 16 % 16 = 0 := by omega
    simp only [e, if_true]
    congr 2
    omega
  | case4 => rfl

theorem utf8EncodeRune_lt (r : Nat) (hr : r < 0x110000) : ∀ b ∈ utf8EncodeRune r, b < 256 := by
  unfold utf8EncodeRune
  intro b hb
  split_ifs at hb <;> simp at hb <;> omega

theorem goBytes_lt (s : String) : ∀ b ∈ goBytes s, b < 256 := by
  intro b hb
  simp only [goBytes, List.mem_flatMap] at hb
  obtain ⟨c, _, hc⟩ := hb
  have hv : c.toNat < 0x110000 := by
    have := c.valid
    simp only [Char.toNat]
    rcases this with h | h
    · have : c.val.toNat < 0xD800 := h
      omega
    · have : c.val.toNat < 0x110000 := h.2
      omega
  exact utf8EncodeRune_lt _ hv b hc

/-- Base64-decoding the encoding of a string gives back the bytes of the string. -/
theorem Base64Decode_Base64Encode (s : String) : Base64Decode (Base64Encode s) = some (goBytes s) :=
  b64_roundtrip_bytes _ (goBytes_lt s)


/-! ## JSON: reading back what was written -/

theorem getu4_hex : ∀ b < 128, getu4 '0' '0' (hexDigit (b / 16)) (hexDigit (b % 16)) = some b := by
  decide

/-- The scanner on a short escape `\e`, for the escapes the encoder writes. -/
theorem scanString_short (e x : Char) (tail : List Char) (hu : e ≠ 'u')
    (hx : (if e = '"' ∨ e = '\\' ∨ e = '/' then some e
        else if e = 'b' then some (Char.ofNat 8)
        else if e = 'f' then some (Char.ofNat 12)
        else if e = 'n' then some '\n'
        else if e = 'r' then some '\r'
        else if e = 't' then some '\t'
        else none) = some x) :
    scanString ('\\' :: e :: tail)
      = (scanString tail).map fun p => (StrUnit.rune x :: p.1, p.2) := by
  rw [scanString.eq_4 e tail (fun _ _ _ _ _ h _ => hu h), hx]
  cases scanString tail <;> rfl

/-- The scanner reads the escape of one rune as one piece. -/
theorem scanString_escape (c : Char) (tail : List Char) :
    scanString (jsonEscapeChar c ++ tail)
      = (scanString tail).map fun p => (escapeUnit c :: p.1, p.2) := by
  by_cases hb : c.toNat < 0x80
  · by_cases hsafe : 0x20 ≤ c.toNat ∧ c ≠ '"' ∧ c ≠ '&' ∧ c ≠ '<' ∧ c ≠ '>' ∧ c ≠ '\\'
    · have he : jsonEscapeChar c = [c] := by simp [jsonEscapeChar, hb, hsafe]
      have hu : escapeUnit c = StrUnit.rune c := by simp [escapeUnit, he]
      rw [he, hu, List.singleton_append,
        scanString.eq_5 c tail hsafe.2.1 (fun _ _ _ _ _ h _ => hsafe.2.2.2.2.2 h)
          (fun _ _ h _ => hsafe.2.2.2.2.2 h)]
      have : ¬ (c = '\\' ∨ c.toNat < 32) := by
        rintro (h | h)
        · exact hsafe.2.2.2.2.2 h
        · omega
      rw [if_neg this]
      cases scanString tail <;> rfl
    · by_cases h1 : c = '\\'
      · subst h1
        have he : jsonEscapeChar '\\' = ['\\', '\\'] := by decide
        have hu : escapeUnit '\\' = StrUnit.rune '\\' := rfl
        rw [he, hu]
        exact scanString_short '\\' '\\' tail (by decide) (by decide)
      by_cases h2 : c = '"'
      · subst h2
        have he : jsonEscapeChar '"' = ['\\', '"'] := by decide
        have hu : escapeUnit '"' = StrUnit.rune '"' := rfl
        rw [he, hu]
        exact scanString_short '"' '"' tail (by decide) (by decide)
      by_cases h3 : c = '\n'
      · subst h3
        have he : jsonEscapeChar '\n' = ['\\', 'n'] := by decide
        have hu : escapeUnit '\n' = StrUnit.rune '\n' := rfl
        rw [he, hu]
        exact scanString_short 'n' '\n' tail (by decide) (by decide)
      by_cases h4 : c = '\r'
      · subst h4
        have he : jsonEscapeChar '\r' = ['\\', 'r'] := by decide
        have hu : escapeUnit '\r' = StrUnit.rune '\r' := rfl
        rw [he, hu]
        exact scanString_short 'r' '\r' tail (by decide) (by decide)
      by_cases h5 : c = '\t'
      · subst h5
        have he : jsonEscapeChar '\t' = ['\\', 't'] := by decide
        have hu : escapeUnit '\t' = StrUnit.rune '\t' := rfl
        rw [he, hu]
        exact scanString_short 't' '\t' tail (by decide) (by decide)
      · have he : jsonEscapeChar c
            = ['\\', 'u', '0', '0', hexDigit (c.toNat / 16), hexDigit (c.toNat % 16)] := by
          have h12 : ¬ (c = '\\' ∨ c = '"') := fun h => h.elim h1 h2
          unfold jsonEscapeChar
          simp only [hb, if_true]
          rw [if_neg hsafe, if_neg h12, if_neg h3, if_neg h4, if_neg h5]
        have hu : escapeUnit c = StrUnit.esc c.toNat := by simp [escapeUnit, he]
        rw [he, hu]
        simp only [List.cons_append, List.nil_append]
        rw [scanString.eq_3, getu4_hex _ hb]
        cases scanString tail <;> rfl
  · have hq : c ≠ '"' := by
      intro h; subst h; exact hb (by decide)
    have hbs : c ≠ '\\' := by
      intro h; subst h; exact hb (by decide)
    by_cases h2 : c.toNat = 0x2028 ∨ c.toNat = 0x2029
    · have he : jsonEscapeChar c = ['\\', 'u', '2', '0', '2', hexDigit (c.toNat % 16)] := by
        simp [jsonEscapeChar, hb, h2]
      have hu : escapeUnit c = StrUnit.esc c.toNat := by simp [escapeUnit, he]
      rw [he, hu]
      simp only [List.cons_append, List.nil_append]
      rw [scanString.eq_3]
      have hg : getu4 '2' '0' '2' (hexDigit (c.toNat % 16)) = some c.toNat := by
        rcases h2 with h | h <;> rw [h] <;> decide
      rw [hg]
      cases scanString tail <;> rfl
    · have he : jsonEscapeChar c = [c] := by simp [jsonEscapeChar, hb, h2]
      have hu : escapeUnit c = StrUnit.rune c := by simp [escapeUnit, he]
      rw [he, hu, List.singleton_append,
        scanString.eq_5 c tail hq (fun _ _ _ _ _ h _ => hbs h) (fun _ _ h _ => hbs h)]
      have : ¬ (c = '\\' ∨ c.toNat < 32) := by
        rintro (h | h)
        · exact hbs h
        · omega
      rw [if_neg this]
      cases scanString tail <;> rfl

/-- A rune the encoder writes as a `\u` escape is no surrogate. -/
theorem escapeUnit_cases (c : Char) :
    escapeUnit c = StrUnit.rune c ∨ (escapeUnit c = StrUnit.esc c.toNat ∧ c.toNat < 0xD800) := by
  by_cases hb : c.toNat < 0x80
  · unfold escapeUnit
    split
    · right; exact ⟨rfl, by omega⟩
    · left; rfl
  · by_cases h2 : c.toNat = 0x2028 ∨ c.toNat = 0x2029
    · unfold escapeUnit
      split
      · right; exact ⟨rfl, by omega⟩
      · left; rfl
    · left
      have he : jsonEscapeChar c = [c] := by simp [jsonEscapeChar, hb, h2]
      simp [escapeUnit, he]

/-- Unquoting the pieces of an encoded string gives back its runes. -/
theorem decodeUnits_escape (cs : List Char) : decodeUnits false (cs.map escapeUnit) = cs := by
  induction cs with
  | nil => rfl
  | cons c cs ih =>
    rw [List.map_cons]
    rcases escapeUnit_cases c with h | ⟨h, hlt⟩
    · rw [h, decodeUnits.eq_3, ih]
    · rw [h, decodeUnits.eq_4]
      have hp : surrogatePair c.toNat (cs.map escapeUnit) = none := by
        unfold surrogatePair
        split
        · rw [if_neg (by omega)]
        · rfl
      rw [hp]
      simp only []
      rw [if_neg (by omega), Char.ofNat_toNat, ih]

/-- The scanner reads an encoded string, up to its closing quote, as the pieces of its runes. -/
theorem scanString_quote (cs rest : List Char) :
    scanString (cs.flatMap jsonEscapeChar ++ '"' :: rest) = some (cs.map escapeUnit, rest) := by
  induction cs with
  | nil => simp [scanString]
  | cons c cs ih =>
    rw [List.flatMap_cons, List.append_assoc, scanString_escape, ih]
    rfl

/-- Reading back a string literal written by the encoder gives the string. -/
theorem parseString_quote (cs rest : List Char) :
    parseString (cs.flatMap jsonEscapeChar ++ '"' :: rest) = some (cs, rest) := by
  unfold parseString
  rw [scanString_quote]
  simp only [decodeUnits_escape]

theorem skipWS_quote (cs : List Char) : skipWS ('"' :: cs) = '"' :: cs := by
  rw [skipWS.eq_1, if_neg (by decide)]

theorem jsonQuote_append (s : String) (rest : List Char) :
    jsonQuote s ++ rest = '"' :: (s.data.flatMap jsonEscapeChar ++ '"' :: rest) := by
  simp [jsonQuote]

/-- The scanner reads what the encoder writes for one step of a Go string as one piece. -/
theorem scanString_escapeGo (shortBF : Bool) (r : GoRune) (tail : List Char) :
    scanString (jsonEscapeRune shortBF r ++ tail)
      = (scanString tail).map fun p => (escapeUnitGo shortBF r :: p.1, p.2) := by
  cases r with
  | invalid b =>
    simp only [jsonEscapeRune, escapeUnitGo, List.cons_append, List.nil_append]
    rw [scanString.eq_3]
    have hg : getu4 'f' 'f' 'f' 'd' = some 0xFFFD := by decide
    rw [hg]
    cases scanString tail <;> rfl
  | rune c =>
    by_cases h8 : shortBF = true ∧ c.toNat = 8
    · have hc : c = Char.ofNat 8 := by rw [← Char.ofNat_toNat c, h8.2]
      have he : jsonEscapeRune shortBF (GoRune.rune c) = ['\\', 'b'] := by
        simp only [jsonEscapeRune, h8, and_self, if_true]
      have hu : escapeUnitGo shortBF (GoRune.rune c) = StrUnit.rune c := by
        simp only [escapeUnitGo, h8, true_or, and_self, if_true]
      rw [he, hu, hc]
      exact scanString_short 'b' (Char.ofNat 8) tail (by decide) (by decide)
    by_cases h12 : shortBF = true ∧ c.toNat = 12
    · have hc : c = Char.ofNat 12 := by rw [← Char.ofNat_toNat c, h12.2]
      have he : jsonEscapeRune shortBF (GoRune.rune c) = ['\\', 'f'] := by
        unfold jsonEscapeRune
        simp only []
        rw [if_neg h8, if_pos h12]
      have hu : escapeUnitGo shortBF (GoRune.rune c) = StrUnit.rune c := by
        simp only [escapeUnitGo, h12, or_true, and_self, if_true]
      rw [he, hu, hc]
      exact scanString_short 'f' (Char.ofNat 12) tail (by decide) (by decide)
    · have he : jsonEscapeRune shortBF (GoRune.rune c) = jsonEscapeChar c := by
        simp only [jsonEscapeRune, if_neg h8, if_neg h12]
      have hn : ¬ (shortBF = true ∧ (c.toNat = 8 ∨ c.toNat = 12)) := by
        rintro ⟨hs, h | h⟩
        · exact h8 ⟨hs, h⟩
        · exact h12 ⟨hs, h⟩
      have hu : escapeUnitGo shortBF (GoRune.rune c) = escapeUnit c := by
        simp only [escapeUnitGo, if_neg hn]
      rw [he, hu]
      exact scanString_escape c tail

/-- What the scanner reads back for one step is the decoded rune, or the code unit of a `\u`
escape of it that is no surrogate. -/
theorem escapeUnitGo_cases (shortBF : Bool) (r : GoRune) :
    escapeUnitGo shortBF r = StrUnit.rune r.decoded ∨
      ∃ n, escapeUnitGo shortBF r = StrUnit.esc n ∧ n < 0xD800 + 0x2800 ∧ ¬ (0xD800 ≤ n ∧ n < 0xE000)
        ∧ Char.ofNat n = r.decoded := by
  cases r with
  | invalid b =>
    right
    exact ⟨0xFFFD, rfl, by decide, by decide, rfl⟩
  | rune c =>
    by_cases hs : shortBF = true ∧ (c.toNat = 8 ∨ c.toNat = 12)
    · left
      simp only [escapeUnitGo, hs, and_self, if_true, GoRune.decoded]
    · have hu : escapeUnitGo shortBF (GoRune.rune c) = escapeUnit c := by
        simp only [escapeUnitGo, if_neg hs]
      rw [hu]
      rcases escapeUnit_cases c with h | ⟨h, hlt⟩
      · left; exact h
      · right
        exact ⟨c.toNat, h, by omega, by omega, Char.ofNat_toNat c⟩

/-- Unquoting the pieces of an encoded Go string gives its decoded runes. -/
theorem decodeUnits_escapeGo (shortBF : Bool) (g : GoString) :
    decodeUnits false (g.map (escapeUnitGo shortBF)) = g.map GoRune.decoded := by
  induction g with
  | nil => rfl
  | cons r g ih =>
    rw [List.map_cons, List.map_cons]
    rcases escapeUnitGo_cases shortBF r with h | ⟨n, h, _, hns, hd⟩
    · rw [h, decodeUnits.eq_3, ih]
    · rw [h, decodeUnits.eq_4]
      have hp : surrogatePair n (g.map (escapeUnitGo shortBF)) = none := by
        unfold surrogatePair
        split
        · rw [if_neg (by omega)]
        · rfl
      rw [hp]
      simp only []
      rw [if_neg hns, hd, ih]

/-- Reading back the string literal the encoder writes for a Go string gives its decoded
runes. -/
theorem parseString_quoteGo (shortBF : Bool) (g : GoString) (rest : List Char) :
    parseString (g.flatMap (jsonEscapeRune shortBF) ++ '"' :: rest)
      = some (g.map GoRune.decoded, rest) := by
  have hscan : scanString (g.flatMap (jsonEscapeRune shortBF) ++ '"' :: rest)
      = some (g.map (escapeUnitGo shortBF), rest) := by
    induction g with
    | nil => simp [scanString]
    | cons r g ih =>
      rw [List.flatMap_cons, List.append_assoc, scanString_escapeGo, ih]
      rfl
  unfold parseString
  rw [hscan]
  simp only [decodeUnits_escapeGo]

theorem jsonQuoteGo_append (shortBF : Bool) (g : GoString) (rest : List Char) :
    jsonQuoteGo shortBF g ++ rest
      = '"' :: (g.flatMap (jsonEscapeRune shortBF) ++ '"' :: rest) := by
  simp [jsonQuoteGo]

/-- Reading a string value written by the encoder. -/
theorem parseValue_quoteGo (shortBF : Bool) (fuel depth : Nat) (g : GoString) (rest : List Char) :
    parseValue (fuel + 1) depth (jsonQuoteGo shortBF g ++ rest)
      = some (JValue.str (g.map GoRune.decoded), rest) := by
  rw [jsonQuoteGo_append, parseValue.eq_3, if_neg (by decide), if_neg (by decide), if_pos rfl,
    parseString_quoteGo]

theorem writeGoMembers_comma_nil (shortBF : Bool) : writeGoMembers shortBF ',' [] = ['}'] := by
  rw [writeGoMembers, if_neg (by decide)]

/-- Reading the members of an object written by the encoder, from the first key on. -/
theorem parseMembers_written (shortBF : Bool) (ms : GoMembers) (kv : String × GoString)
    (fuel depth : Nat) (tail : List Char) (hf : ms.length + 2 ≤ fuel) :
    parseMembers fuel depth
        (jsonQuote kv.1 ++ ':' :: (jsonQuoteGo shortBF kv.2 ++ (writeGoMembers shortBF ',' ms ++ tail)))
      = some ((kv :: ms).map (fun kv => (kv.1.data, JValue.str (kv.2.map GoRune.decoded))), tail) := by
  induction ms generalizing kv fuel with
  | nil =>
    obtain ⟨f, rfl⟩ : ∃ f, fuel = f + 2 := ⟨fuel - 2, by simp at hf; omega⟩
    rw [jsonQuote_append, parseMembers.eq_2, parseString_quote]
    simp only []
    rw [skipWS.eq_1, if_neg (by decide)]
    simp only []
    rw [jsonQuoteGo_append, skipWS_quote, ← jsonQuoteGo_append, parseValue_quoteGo]
    simp only [writeGoMembers_comma_nil, List.singleton_append]
    rw [skipWS.eq_1, if_neg (by decide)]
    rfl
  | cons kv2 ms ih =>
    obtain ⟨f, rfl⟩ : ∃ f, fuel = f + 2 := ⟨fuel - 2, by simp at hf; omega⟩
    have ih1 := ih kv2 (f + 1) (by simp at hf ⊢; omega)
    rw [jsonQuote_append, parseMembers.eq_2, parseString_quote]
    simp only []
    rw [skipWS.eq_1, if_neg (by decide)]
    simp only []
    rw [jsonQuoteGo_append, skipWS_quote, ← jsonQuoteGo_append, parseValue_quoteGo]
    simp only [writeGoMembers, List.cons_append, List.append_assoc]
    rw [skipWS.eq_1, if_neg (by decide)]
    simp only []
    rw [jsonQuote_append, skipWS_quote, ← jsonQuote_append, ih1]
    rfl

theorem writeGoMembers_length (shortBF : Bool) (next : Char) (ms : GoMembers) :
    ms.length + 1 ≤ (writeGoMembers shortBF next ms).length := by
  induction ms generalizing next with
  | nil => simp only [writeGoMembers]; split_ifs <;> simp
  | cons kv ms ih =>
    have := ih ','
    simp only [writeGoMembers, List.length_cons, List.length_append]
    omega

/-- Reading the object the encoder writes for a non-empty list of members. -/
theorem parseValue_written (shortBF : Bool) (kv : String × GoString) (ms : GoMembers) (f : Nat)
    (hf : ms.length + 2 ≤ f) :
    parseValue (f + 1) 0 (writeGoMembers shortBF '{' (kv :: ms))
      = some (goMembersValue (kv :: ms), []) := by
  have hw : writeGoMembers shortBF '{' (kv :: ms)
      = '{' :: (jsonQuote kv.1 ++ ':' :: (jsonQuoteGo shortBF kv.2
          ++ (writeGoMembers shortBF ',' ms ++ []))) := by
    simp [writeGoMembers]
  rw [hw, parseValue.eq_3, if_pos rfl, if_neg (by simp [maxNestingDepth]), jsonQuote_append,
    skipWS_quote]
  split
  · next r h => exact absurd (List.cons.inj h).1 (by decide)
  · rw [← jsonQuote_append, parseMembers_written shortBF ms kv f 1 [] hf]
    rfl

/-- Reading back an object written by the encoder gives its members, in order, each value
decoded; the bound of the reader is not reached. -/
theorem parseJSON_jsonObjectGo (shortBF : Bool) (ms : GoMembers) :
    parseJSON (jsonObjectGo shortBF ms) = some (goMembersValue ms) := by
  have hlen := writeGoMembers_length shortBF '{' ms
  unfold parseJSON jsonObjectGo
  simp only []
  cases ms with
  | nil => rfl
  | cons kv ms =>
    obtain ⟨f, hf⟩ : ∃ f, 2 * (writeGoMembers shortBF '{' (kv :: ms)).length + 2 = f + 1 :=
      ⟨_, rfl⟩
    have hf2 : ms.length + 2 ≤ f := by simp at hlen; omega
    have hs : skipWS (writeGoMembers shortBF '{' (kv :: ms))
        = writeGoMembers shortBF '{' (kv :: ms) := by
      rw [writeGoMembers, skipWS.eq_1, if_neg (by decide)]
    rw [hf, hs, parseValue_written shortBF kv ms f hf2]
    rfl

/-! ## The referrer parameter -/

/-- The members of the referrer parameter of a Go string: the two fixed ones, then the entity
GUID unless it is empty. -/
theorem Bytewise_generateReferrerParam_eq (shortBF : Bool) (g : GoString) :
    Bytewise.generateReferrerParam shortBF g
      = jsonObjectGo shortBF
          ([("nerdletId", GoString.ofString "nr1-install-newrelic.installation-plan"),
            ("referrer", GoString.ofString "newrelic-cli")]
            ++ if g = [] then [] else [("entityGuid", g)]) := by
  cases g with
  | nil => rfl
  | cons r g => rfl

theorem jsonEscapeRune_false (c : Char) : jsonEscapeRune false (GoRune.rune c) = jsonEscapeChar c := by
  simp [jsonEscapeRune]

theorem jsonQuoteGo_ofString (s : String) : jsonQuoteGo false (GoString.ofString s) = jsonQuote s := by
  unfold jsonQuoteGo jsonQuote GoString.ofString
  congr 2
  induction s.data with
  | nil => rfl
  | cons c cs ih => simp [List.flatMap_cons, jsonEscapeRune_false, ih]

/-- On a well-formed string and with the encoder before Go 1.22, the referrer parameter of the
Go string is `generateReferrerParam`. -/
theorem generateReferrerParam_bytewise (s : String) :
    generateReferrerParam s = Bytewise.generateReferrerParam false (GoString.ofString s) := by
  by_cases h : s = ""
  · subst h
    rfl
  · have hne : GoString.ofString s ≠ [] := by
      intro h0
      apply h
      apply String.ext
      simpa [GoString.ofString] using h0
    rw [Bytewise_generateReferrerParam_eq, if_neg hne]
    simp only [generateReferrerParam, jsonMarshal, referrerParamValue.members, ne_eq, h,
      not_false_eq_true, if_true]
    have hf : List.filter (fun kv : String × String => decide (kv.2 ≠ ""))
        [("nerdletId", "nr1-install-newrelic.installation-plan"), ("referrer", "newrelic-cli"),
          ("entityGuid", s)]
        = [("nerdletId", "nr1-install-newrelic.installation-plan"), ("referrer", "newrelic-cli"),
          ("entityGuid", s)] := by
      simp [List.filter, h]
    rw [hf]
    simp only [jsonObject, jsonObjectGo, writeMembers, writeGoMembers, List.cons_append,
      List.nil_append, jsonQuoteGo_ofString]

theorem generateReferrerParam_empty :
    generateReferrerParam ""
      = "\x7b\"nerdletId\":\"nr1-install-newrelic.installation-plan\",\"referrer\":\"newrelic-cli\"\x7d" := by
  decide

set_option maxRecDepth 100000 in
theorem Base64Encode_referrer_empty :
    Base64Encode "\x7b\"nerdletId\":\"nr1-install-newrelic.installation-plan\",\"referrer\":\"newrelic-cli\"\x7d"
      = "eyJuZXJkbGV0SWQiOiJucjEtaW5zdGFsbC1uZXdyZWxpYy5pbnN0YWxsYXRpb24tcGxhbiIsInJlZmVycmVyIjoibmV3cmVsaWMtY2xpIn0=" := by
  decide

set_option maxRecDepth 100000 in
theorem Base64Encode_referrer_ABC123 :
    Base64Encode "\x7b\"nerdletId\":\"nr1-install-newrelic.installation-plan\",\"referrer\":\"newrelic-cli\",\"entityGuid\":\"ABC123\"\x7d"
      = "eyJuZXJkbGV0SWQiOiJucjEtaW5zdGFsbC1uZXdyZWxpYy5pbnN0YWxsYXRpb24tcGxhbiIsInJlZmVycmVyIjoibmV3cmVsaWMtY2xpIiwiZW50aXR5R3VpZCI6IkFCQzEyMyJ9" := by
  decide

theorem generateReferrerParam_ABC123 :
    generateReferrerParam "ABC123"
      = "\x7b\"nerdletId\":\"nr1-install-newrelic.installation-plan\",\"referrer\":\"newrelic-cli\",\"entityGuid\":\"ABC123\"\x7d" := by
  decide

/-! ## Long URLs -/

/-- What the unit test of a successful install expects holds whenever the shortening service
gives no short URL: with no region set the redirect URL of a status whose selected recipes are
all installed is `https://one.newrelic.com/redirect/entity/` followed by the host entity GUID. -/
theorem GenerateRedirectURL_installed_long (g : PlatformLinkGenerator) (env : Env)
    (s : InstallStatus) (guid : String) (hall : s.AllSelectedRecipesInstalled = true)
    (hguid : s.HostEntityGUID = guid) (hregion : env.region = "")
    (hshort : ∀ body url, shortenCall env (generateEntityURL env guid) = Except.ok body →
      jsonUnmarshalURL body = (url, none) → url = "") :
    g.GenerateRedirectURL env s = "https://one.newrelic.com/redirect/entity/" ++ guid := by
  have hhost : nrPlatformHostname env = "one.newrelic.com" := by
    unfold nrPlatformHostname
    rw [hregion]
    rfl
  have hlong : generateEntityURL env guid = "https://one.newrelic.com/redirect/entity/" ++ guid := by
    rw [generateEntityURL_eq, hhost]
    apply String.ext
    simp
  have hbe := generateEntityLink_bestEffort env guid
  have hlink : generateEntityLink env guid = generateEntityURL env guid := by
    by_contra hne
    obtain ⟨body, hb, hu, hn⟩ := hbe.2.2.2.2 hne
    exact hn (hshort body _ hb hu)
  simp only [PlatformLinkGenerator.GenerateRedirectURL, hall, if_true,
    PlatformLinkGenerator.GenerateEntityLink, hguid, hlink, hlong]

/-- A best-effort shortened link is the long URL when the shortening call yields no short
URL. -/
theorem link_of_noShortURL (env : Env) (long link : String)
    (hbe : BestEffortShortened env long link) (hno : NoShortURL env long) : link = long := by
  by_contra hne
  obtain ⟨body, hb, hu, hn⟩ := hbe.2.2.2.2 hne
  exact hn (hno body link hb hu)

/-- The service of `envKeyedRefused` yields no short URL, whatever the long URL. -/
theorem noShortURL_envKeyedRefused (long : String) : NoShortURL envKeyedRefused long := by
  intro body url hb hu
  have hbody : body = "\x7b\"error\":\"quota exceeded\"\x7d" := by
    have h : Except.ok "\x7b\"error\":\"quota exceeded\"\x7d" = (Except.ok body : Except String String) := hb
    cases h
    rfl
  subst hbody
  have hd : jsonUnmarshalURL "\x7b\"error\":\"quota exceeded\"\x7d" = ("", none) := by decide
  rw [hd] at hu
  cases hu
  rfl

/-! ## The claims -/

/-- Claim C1. For every install status `s`, `GenerateRedirectURL(s)` is
`GenerateEntityLink(s.HostEntityGUID())` when `s.AllSelectedRecipesInstalled()` is true and
`GenerateExplorerLink(s)` otherwise, in the same environment (configuration and shortening
service). Both branches occur: the unit tests' installed status takes the first, their partly
failed status the second. -/
theorem GenerateRedirectURL_dispatch (g : PlatformLinkGenerator) (env : Env) (s : InstallStatus) :
    (g.GenerateRedirectURL env s =
      if s.AllSelectedRecipesInstalled = true then g.GenerateEntityLink env s.HostEntityGUID
      else g.GenerateExplorerLink env s) ∧
    (∀ guid, g.GenerateRedirectURL env (installedStatus guid) = g.GenerateEntityLink env guid) ∧
    g.GenerateRedirectURL env mixedStatus = g.GenerateExplorerLink env mixedStatus := by
  refine ⟨rfl, ?_, ?_⟩
  · intro guid
    have h : (installedStatus guid).AllSelectedRecipesInstalled = true := by
      simp [installedStatus, InstallStatus.AllSelectedRecipesInstalled]
    simp only [PlatformLinkGenerator.GenerateRedirectURL, h, if_true]
    rfl
  · have h : mixedStatus.AllSelectedRecipesInstalled = false := by decide
    simp [PlatformLinkGenerator.GenerateRedirectURL, h]

set_option maxRecDepth 100000 in
/-- Claim C2. The code at the failing input: the unit tests' installed status with entity GUID
`ABC123`, no region set, `NEW_RELIC_API_KEY` empty, and a shortening service that answers
`{"url":"https://nr.io/abc"}`. The request is sent although no key is configured, and
`GenerateRedirectURL` returns the short URL, not
`https://one.newrelic.com/redirect/entity/ABC123`. -/
theorem redirect_installed_without_key_is_short :
    (installedStatus "ABC123").AllSelectedRecipesInstalled = true ∧
    (installedStatus "ABC123").HostEntityGUID = "ABC123" ∧
    envNoKeyAnswering.region = "" ∧ envNoKeyAnswering.apiKey = "" ∧
    generateEntityURL envNoKeyAnswering "ABC123" = "https://one.newrelic.com/redirect/entity/ABC123" ∧
    PlatformLinkGenerator.GenerateRedirectURL { httpClient := failingClient } envNoKeyAnswering
      (installedStatus "ABC123") = "https://nr.io/abc" := by
  decide

set_option maxRecDepth 100000 in
/-- Claim C3. For every install status `s` the long explorer URL is `https://`, the platform
host, `/launcher/nr1-core.explorer?platform[filters]=`, the base64 of the success-link filter,
`&platform[accountId]=`, the decimal account ID, `&cards[0]=`, the base64 of
`generateReferrerParam(s.HostEntityGUID())`. For the unit tests' partly failed status (one
recipe installed with GUID `ABC123`, one failed) the `cards[0]` value base64-decodes to the
bytes of `{"nerdletId":"nr1-install-newrelic.installation-plan","referrer":"newrelic-cli","entityGuid":"ABC123"}`. -/
theorem generateExplorerURL_format (env : Env) (s : InstallStatus) :
    generateExplorerURL env s
      = "https://" ++ nrPlatformHostname env ++ "/launcher/nr1-core.explorer?platform[filters]="
        ++ Base64Encode s.successLinkConfig.Filter ++ "&platform[accountId]="
        ++ toString env.accountID ++ "&cards[0]="
        ++ Base64Encode (generateReferrerParam s.HostEntityGUID) ∧
    mixedStatus.AllSelectedRecipesInstalled = false ∧
    generateExplorerURL env mixedStatus
      = "https://" ++ nrPlatformHostname env ++ "/launcher/nr1-core.explorer?platform[filters]="
        ++ "&platform[accountId]=" ++ toString env.accountID ++ "&cards[0]="
        ++ "eyJuZXJkbGV0SWQiOiJucjEtaW5zdGFsbC1uZXdyZWxpYy5pbnN0YWxsYXRpb24tcGxhbiIsInJlZmVycmVyIjoibmV3cmVsaWMtY2xpIiwiZW50aXR5R3VpZCI6IkFCQzEyMyJ9" ∧
    Base64Decode "eyJuZXJkbGV0SWQiOiJucjEtaW5zdGFsbC1uZXdyZWxpYy5pbnN0YWxsYXRpb24tcGxhbiIsInJlZmVycmVyIjoibmV3cmVsaWMtY2xpIiwiZW50aXR5R3VpZCI6IkFCQzEyMyJ9"
      = some (goBytes "\x7b\"nerdletId\":\"nr1-install-newrelic.installation-plan\",\"referrer\":\"newrelic-cli\",\"entityGuid\":\"ABC123\"\x7d") := by
  refine ⟨generateExplorerURL_eq env s, by decide, ?_, ?_⟩
  · rw [generateExplorerURL_eq]
    have h1 : mixedStatus.HostEntityGUID = "ABC123" := rfl
    have h2 : mixedStatus.successLinkConfig.Filter = "" := rfl
    have h3 : Base64Encode "" = "" := rfl
    rw [h1, h2, h3, generateReferrerParam_ABC123, Base64Encode_referrer_ABC123]
    apply String.ext
    simp
  · rw [← Base64Encode_referrer_ABC123]
    exact Base64Decode_Base64Encode _

/-- Claim C4, as amended. For every Go string `g` and either release of the JSON encoder,
`generateReferrerParam(g)` read back as JSON is the object with the members `nerdletId` =
`nr1-install-newrelic.installation-plan` and `referrer` = `newrelic-cli`, in that order,
followed by a member `entityGuid` exactly when `g` is not empty; the value of that member is `g`
with every byte that is not well-formed UTF-8 replaced by U+FFFD, so it is `g` itself when `g`
is well-formed. For `g = ""` the text is exactly
`{"nerdletId":"nr1-install-newrelic.installation-plan","referrer":"newrelic-cli"}`, whose
base64 encoding is `eyJuZXJk...In0=`. The long explorer URL of a status without host entity
GUID ends with that encoding, and the redirect URL of such a status, when not all selected
recipes are installed, is that long URL whenever the shortening call yields no short URL. -/
theorem generateReferrerParam_members (shortBF : Bool) (g : GoString) :
    parseJSON (Bytewise.generateReferrerParam shortBF g)
      = some (JValue.obj
          ([("nerdletId".data, JValue.str "nr1-install-newrelic.installation-plan".data),
            ("referrer".data, JValue.str "newrelic-cli".data)]
            ++ if g = [] then [] else [("entityGuid".data, JValue.str (g.map GoRune.decoded))])) ∧
    (∀ s : String, (GoString.ofString s).map GoRune.decoded = s.data) ∧
    (∀ s : String,
      generateReferrerParam s = Bytewise.generateReferrerParam false (GoString.ofString s)) ∧
    Bytewise.generateReferrerParam shortBF [] = "\x7b\"nerdletId\":\"nr1-install-newrelic.installation-plan\",\"referrer\":\"newrelic-cli\"\x7d" ∧
    Base64Encode "\x7b\"nerdletId\":\"nr1-install-newrelic.installation-plan\",\"referrer\":\"newrelic-cli\"\x7d" = "eyJuZXJkbGV0SWQiOiJucjEtaW5zdGFsbC1uZXdyZWxpYy5pbnN0YWxsYXRpb24tcGxhbiIsInJlZmVycmVyIjoibmV3cmVsaWMtY2xpIn0=" ∧
    (∀ (env : Env) (s : InstallStatus), s.HostEntityGUID = "" →
      generateExplorerURL env s
        = "https://" ++ nrPlatformHostname env ++ "/launcher/nr1-core.explorer?platform[filters]="
          ++ Base64Encode s.successLinkConfig.Filter ++ "&platform[accountId]="
          ++ toString env.accountID ++ "&cards[0]=" ++ "eyJuZXJkbGV0SWQiOiJucjEtaW5zdGFsbC1uZXdyZWxpYy5pbnN0YWxsYXRpb24tcGxhbiIsInJlZmVycmVyIjoibmV3cmVsaWMtY2xpIn0=") ∧
    (∀ (gen : PlatformLinkGenerator) (env : Env) (s : InstallStatus),
      s.AllSelectedRecipesInstalled = false → s.HostEntityGUID = "" →
      NoShortURL env (generateExplorerURL env s) →
      gen.GenerateRedirectURL env s
        = "https://" ++ nrPlatformHostname env ++ "/launcher/nr1-core.explorer?platform[filters]="
          ++ Base64Encode s.successLinkConfig.Filter ++ "&platform[accountId]="
          ++ toString env.accountID ++ "&cards[0]=" ++ "eyJuZXJkbGV0SWQiOiJucjEtaW5zdGFsbC1uZXdyZWxpYy5pbnN0YWxsYXRpb24tcGxhbiIsInJlZmVycmVyIjoibmV3cmVsaWMtY2xpIn0=") := by
  refine ⟨?_, ?_, generateReferrerParam_bytewise, ?_, Base64Encode_referrer_empty, ?_, ?_⟩
  · rw [Bytewise_generateReferrerParam_eq, parseJSON_jsonObjectGo]
    by_cases hg : g = []
    · subst hg
      rfl
    · simp only [if_neg hg]
      rfl
  · intro s
    unfold GoString.ofString
    rw [List.map_map]
    induction s.data with
    | nil => rfl
    | cons c cs ih => rw [List.map_cons, ih]; rfl
  · cases shortBF <;> decide
  · intro env s hs
    rw [generateExplorerURL_eq, hs, generateReferrerParam_empty, Base64Encode_referrer_empty]
  · intro gen env s hall hs hno
    have hr : gen.GenerateRedirectURL env s = generateExplorerLink env s := by
      simp [PlatformLinkGenerator.GenerateRedirectURL, PlatformLinkGenerator.GenerateExplorerLink,
        hall]
    rw [hr, link_of_noShortURL env _ _ (generateExplorerLink_bestEffort env s) hno,
      generateExplorerURL_eq, hs, generateReferrerParam_empty, Base64Encode_referrer_empty]

set_option maxRecDepth 100000 in
/-- The amended claim C4 at concrete inputs: the GUID `ABC123`, and the unit tests' failed
status with a shortening service that answers without a `url`. -/
theorem generateReferrerParam_members_witness :
    parseJSON (Bytewise.generateReferrerParam false (GoString.ofString "ABC123"))
      = some (JValue.obj
          [("nerdletId".data, JValue.str "nr1-install-newrelic.installation-plan".data),
           ("referrer".data, JValue.str "newrelic-cli".data),
           ("entityGuid".data, JValue.str "ABC123".data)]) ∧
    failedStatus.AllSelectedRecipesInstalled = false ∧
    NoShortURL envKeyedRefused (generateExplorerURL envKeyedRefused failedStatus) ∧
    failedStatus.HostEntityGUID = "" ∧
    PlatformLinkGenerator.GenerateRedirectURL { httpClient := failingClient } envKeyedRefused
        failedStatus
      = "https://one.newrelic.com/launcher/nr1-core.explorer?platform[filters]=&platform[accountId]=12345&cards[0]=eyJuZXJkbGV0SWQiOiJucjEtaW5zdGFsbC1uZXdyZWxpYy5pbnN0YWxsYXRpb24tcGxhbiIsInJlZmVycmVyIjoibmV3cmVsaWMtY2xpIn0=" :=
  ⟨(generateReferrerParam_members false (GoString.ofString "ABC123")).1,
   by decide,
   noShortURL_envKeyedRefused _,
   by decide,
   ((generateReferrerParam_members false []).2.2.2.2.2.2 { httpClient := failingClient }
      envKeyedRefused failedStatus (by decide) (by decide)
      (noShortURL_envKeyedRefused _)).trans (by decide)⟩

set_option maxRecDepth 100000 in
/-- Claim C4 as stated fails in two places. For the Go string `g` of the single byte `0xFF` the
`entityGuid` member is U+FFFD, whose bytes are not the byte of `g`. And with an API key
configured and a shortening service that answers `{"url":"https://nr.io/abc"}`, the redirect
URL of the unit tests' failed status is the short URL, which does not contain
`eyJuZXJk...In0=`. -/
theorem referrerParam_claim_fails :
    parseJSON (Bytewise.generateReferrerParam false [GoRune.invalid 0xFF])
      = some (JValue.obj
          [("nerdletId".data, JValue.str "nr1-install-newrelic.installation-plan".data),
           ("referrer".data, JValue.str "newrelic-cli".data),
           ("entityGuid".data, JValue.str [Char.ofNat 0xFFFD])]) ∧
    Bytewise.generateReferrerParam false [GoRune.invalid 0xFF]
      = "\x7b\"nerdletId\":\"nr1-install-newrelic.installation-plan\",\"referrer\":\"newrelic-cli\",\"entityGuid\":\"\\ufffd\"\x7d" ∧
    goBytes (String.mk [Char.ofNat 0xFFFD]) = [0xEF, 0xBF, 0xBD] ∧
    GoString.bytes [GoRune.invalid 0xFF] = [0xFF] ∧
    failedStatus.AllSelectedRecipesInstalled = false ∧
    envKeyedAnswering.apiKey = "NRAK-0000" ∧
    PlatformLinkGenerator.GenerateRedirectURL { httpClient := failingClient } envKeyedAnswering
        failedStatus = "https://nr.io/abc" ∧
    containsText "https://nr.io/abc" "eyJuZXJkbGV0SWQiOiJucjEtaW5zdGFsbC1uZXdyZWxpYy5pbnN0YWxsYXRpb24tcGxhbiIsInJlZmVycmVyIjoibmV3cmVsaWMtY2xpIn0=" = false := by
  refine ⟨?_, by decide, by decide, by decide, by decide, by decide, by decide, by decide⟩
  rw [Bytewise_generateReferrerParam_eq, parseJSON_jsonObjectGo]
  rfl

/-- Claim C5. For every long URL and every outcome of the shortening call, `generateEntityLink`
and `generateExplorerLink` return the long URL when the call reports an error (a transport
error, or a status the client reports as an error), when the response does not decode, and
when its `url` field is empty; they return the short URL only when the call succeeds with a
non-empty `url` field. Both are total functions to `String`: no failure reaches the caller. -/
theorem links_best_effort_shortened (env : Env) (entityGUID : String) (s : InstallStatus) :
    BestEffortShortened env (generateEntityURL env entityGUID) (generateEntityLink env entityGUID) ∧
    BestEffortShortened env (generateExplorerURL env s) (generateExplorerLink env s) :=
  ⟨generateEntityLink_bestEffort env entityGUID, generateExplorerLink_bestEffort env s⟩

set_option maxRecDepth 100000 in
/-- Claim C6. The code at the failing input: `NEW_RELIC_API_KEY` empty. The link functions still
call the shortening service: with a service that answers `{"url":"https://nr.io/abc"}` both
return that short URL, with an unreachable service the long URL, so the result depends on the
answer of the service although no key is configured. -/
theorem shortening_attempted_without_key :
    envNoKeyAnswering.apiKey = "" ∧ envUnreachable.apiKey = "" ∧
    generateEntityLink envNoKeyAnswering "ABC123" = "https://nr.io/abc" ∧
    generateExplorerLink envNoKeyAnswering failedStatus = "https://nr.io/abc" ∧
    generateEntityLink envUnreachable "ABC123" = "https://one.newrelic.com/redirect/entity/ABC123" := by
  decide

set_option maxRecDepth 100000 in
/-- Claim C10. The code at the failing input: the `POST` succeeds and the response body
`<html>502 Bad Gateway</html>` does not decode as JSON. `generateShortNewRelicURL` returns the
empty string together with the error, not the long URL. -/
theorem generateShortNewRelicURL_decode_error :
    shortenCall envGarbled "https://one.newrelic.com/redirect/entity/ABC123"
      = Except.ok "<html>502 Bad Gateway</html>" ∧
    generateShortNewRelicURL envGarbled "https://one.newrelic.com/redirect/entity/ABC123"
      = ("", some "json: syntax error") ∧
    (generateShortNewRelicURL envGarbled "https://one.newrelic.com/redirect/entity/ABC123").1
      ≠ "https://one.newrelic.com/redirect/entity/ABC123" := by
  refine ⟨rfl, by decide, by decide⟩

end Execution
